import Mathlib

/-!
# IceMX metrics observers (`cpp/src/Ice/MetricsObserverI.h`)

A shallow embedding of the attribute-resolver registry
(`MetricsHelperT::AttributeResolverT`) and of the per-event observer
(`ObserverT`), followed by theorems about them.

Conventions of the embedding:

* `std::map<std::string, Resolver*>` is an association list with unique keys;
  only `find` and `insert` are used by the code.
* a `std::vector` iterator is an index into the list that models the vector;
  a `const_iterator` that only walks forward is the list of elements still ahead.
* calls made on collaborators that live outside this header (metric entries,
  the stopwatch) are recorded in a log, and the state of those collaborators
  is an explicit value of an arbitrary type `W` that every call threads through.
* observer objects reached through handles live in a heap, a list indexed by
  address; a handle is `none` for the null handle or `some a` for address `a`,
  and `new` places the object at the first unused address.
-/

namespace IceMX

/-! ## Attribute resolution -/

/-- A value read from a helper or from one of its sub-objects, classified by the
`toString` overload that C++ overload resolution picks for its static type:
`bool`, `std::string`, or any other type `I`, for which the generic overload
writes the value to a `std::ostringstream`; `streamed` is the text that
`os << v` produces. -/
inductive Value where
  | bool (v : Bool)
  | string (s : String)
  | generic (streamed : String)
  deriving DecidableEq, Repr

/-- The three `AttributeResolverT::toString` overloads. -/
def AttributeResolverT.toString : Value → String
  | .generic streamed => streamed
  | .string s => s
  | .bool v => if v then "true" else "false"

/-- What a resolver touches while it runs. -/
inductive Access where
  /-- the virtual call `(*p->second)(helper)` on the resolver stored under `name` -/
  | resolver (name : String)
  /-- reading `r->*_member` or calling `(r->*_memberFn)()` on the helper -/
  | helperMember
  /-- calling the outer accessor `(r->*_getFn)()` on the helper -/
  | getFn
  /-- reading `v->*_member` or calling `(v->*_memberFn)()` on the sub-object -/
  | innerMember
  deriving DecidableEq, Repr

/-- The four concrete `Resolver` classes. `Helper` is the helper type, `O` the
pointee of what `ReferenceWrapper<O>::get(o)` yields (`none` is the null
pointer) and `I` the expected nested type; `dynamicCast` is
`dynamic_cast<I*>` on a non-null pointer. -/
inductive Resolver (Helper O I : Type) where
  | HelperMemberResolver (member : Helper → Value)
  | HelperMemberFunctionResolver (memberFn : Helper → Value)
  | MemberResolver (getFn : Helper → Option O) (dynamicCast : O → Option I)
      (member : I → Value)
  | MemberFunctionResolver (getFn : Helper → Option O) (dynamicCast : O → Option I)
      (memberFn : I → Value)

/-- The `operator()(const Helper* r)` of each resolver class: the string it
returns and the accesses it performs, in order. -/
def Resolver.call {Helper O I : Type} : Resolver Helper O I → Helper → String × List Access
  | .HelperMemberResolver member, r => (AttributeResolverT.toString (member r), [.helperMember])
  | .HelperMemberFunctionResolver memberFn, r => (AttributeResolverT.toString (memberFn r), [.helperMember])
  | .MemberResolver getFn dynamicCast member, r =>
    match (getFn r).bind dynamicCast with
    | some v => (AttributeResolverT.toString (member v), [.getFn, .innerMember])
    | none => ("unknown", [.getFn])
  | .MemberFunctionResolver getFn dynamicCast memberFn, r =>
    match (getFn r).bind dynamicCast with
    | some v => (AttributeResolverT.toString (memberFn v), [.getFn, .innerMember])
    | none => ("unknown", [.getFn])

/-- The registry `AttributeResolverT<Helper>`; `_attributes` is the
`std::map<std::string, Resolver*>`. -/
structure AttributeResolverT (Helper O I : Type) where
  _attributes : List (String × Resolver Helper O I)

namespace AttributeResolverT

variable {Helper O I : Type}

/-- A freshly constructed registry. -/
def empty : AttributeResolverT Helper O I := ⟨[]⟩

/-- The lookup `std::map::find`: the resolver stored under the name, or `none` for
`end()`. -/
def find (reg : AttributeResolverT Helper O I) (attributeName : String) :
    Option (Resolver Helper O I) :=
  match reg._attributes.find? (fun kv => kv.1 == attributeName) with
  | some kv => some kv.2
  | none => none

/-- The insertion `std::map::insert(make_pair(name, resolver))`: a key that is already
present keeps its element and the map is unchanged. -/
def insert (reg : AttributeResolverT Helper O I) (name : String)
    (resolver : Resolver Helper O I) : AttributeResolverT Helper O I :=
  match reg.find name with
  | some _ => reg
  | none => ⟨reg._attributes ++ [(name, resolver)]⟩

/-- The four `add` overloads, which differ only in the resolver class they
allocate; the resolver is passed already constructed. -/
def add (reg : AttributeResolverT Helper O I) (name : String)
    (resolver : Resolver Helper O I) : AttributeResolverT Helper O I :=
  reg.insert name resolver

/-- A sequence of `add` calls, applied in order. -/
def addAll (reg : AttributeResolverT Helper O I)
    (adds : List (String × Resolver Helper O I)) : AttributeResolverT Helper O I :=
  adds.foldl (fun r a => r.add a.1 a.2) reg

/-- The call `AttributeResolverT::operator()(helper, attribute)`: the returned string and
the accesses performed while computing it. -/
def call (reg : AttributeResolverT Helper O I) (helper : Helper) (attributeName : String) :
    String × List Access :=
  match reg.find attributeName with
  | none =>
    if attributeName = "none" then
      ("", [])
    else
      ("unknown", [])
  | some resolver =>
    let r := resolver.call helper
    (r.1, Access.resolver attributeName :: r.2)

end AttributeResolverT

/-! ## Observers -/

/-- A call made on a metric entry (`MetricsMapI::Entry`, declared in
`Ice/MetricsAdminI.h`): `(*p)->attach(helper)` together with the metric object
it returned, `p->second->detach(lifetime)` and `p->second->failed(exceptionName)`. -/
inductive Call (E H M : Type) where
  | attach (entry : E) (helper : H) (returned : M)
  | detach (entry : E) (lifetime : Int)
  | failed (entry : E) (exceptionName : String)
  deriving DecidableEq, Repr

/-- The entry a call is made on. -/
def Call.entry {E H M : Type} : Call E H M → E
  | .attach entry _ _ => entry
  | .detach entry _ => entry
  | .failed entry _ => entry

/-- The operations of `MetricsMapI::Entry` that observers call. The class is
declared outside this header, so its operations are parameters: each acts on
the state `W` of the metric-map store, and `attach` returns the metric
object. -/
structure EntryOps (E H M W : Type) where
  attach : E → H → W → M × W
  detach : E → Int → W → W
  failed : E → String → W → W

/-- Modelled from the spec: `IceUtilInternal::StopWatch`, whose header
`IceUtil/StopWatch.h` is not among the sources. The spec calls it an
"elapsed-time tracker, started on `attach`, stopped on `detach`"; `_s` is
the clock reading taken by `start`, absent while the watch is not running. -/
structure StopWatch where
  _s : Option Int
  deriving DecidableEq, Repr

/-- Modelled from the spec: `StopWatch::start()` at clock reading `now`. -/
def StopWatch.start (_w : StopWatch) (now : Int) : StopWatch := ⟨some now⟩

/-- Modelled from the spec: `StopWatch::stop()` at clock reading `now` returns the time
elapsed since `start` and leaves the watch stopped. -/
def StopWatch.stop (w : StopWatch) (now : Int) : Int × StopWatch :=
  match w._s with
  | some s => (now - s, ⟨none⟩)
  | none => (0, ⟨none⟩)

/-- The data members of `ObserverT<MetricsType>`: `_objects` is the vector of
`(metric object, entry)` pairs (`p->first`, `p->second`). -/
structure ObserverT (M E : Type) where
  _objects : List (M × E)
  _watch : StopWatch

/-- The local state of the loop in `ObserverT::update`: the observer being
updated, the iterator `q` as an index into `_objects`, the state of the
store, the calls made on entries so far, the number of loop iterations run and
the pairs erased so far. -/
structure UpdateState (E H M W : Type) where
  obsv : ObserverT M E
  q : Nat
  world : W
  calls : List (Call E H M)
  iterations : Nat
  erased : List (M × E)

namespace UpdateState

variable {E H M W : Type}

/-- Branch `// New metrics object`:
`q = _objects.insert(q, std::make_pair((*p)->attach(helper), *p)); ++p; ++q;`. -/
def newObject (ops : EntryOps E H M W) (helper : H) (c : E) (s : UpdateState E H M W) :
    UpdateState E H M W :=
  let r := ops.attach c helper s.world
  { obsv := { s.obsv with
      _objects := s.obsv._objects.take s.q ++ (r.1, c) :: s.obsv._objects.drop s.q }
    q := s.q + 1
    world := r.2
    calls := s.calls ++ [Call.attach c helper r.1]
    iterations := s.iterations + 1
    erased := s.erased }

/-- Branch `// Same metrics object`: `++p; ++q;`. -/
def sameObject (s : UpdateState E H M W) : UpdateState E H M W :=
  { s with q := s.q + 1, iterations := s.iterations + 1 }

/-- Branch `// Removed metrics object`: `q = _objects.erase(q);`. -/
def removedObject (s : UpdateState E H M W) : UpdateState E H M W :=
  { s with
    obsv := { s.obsv with _objects := s.obsv._objects.eraseIdx s.q }
    iterations := s.iterations + 1
    erased := s.erased ++ s.obsv._objects[s.q]?.toList }

end UpdateState

namespace ObserverT

variable {E H M W : Type}

/-- The constructor `ObserverT()`: no matched pair, stopwatch not started. -/
def new : ObserverT M E := ⟨[], ⟨none⟩⟩

/-- The entries of the matched pairs, `_objects` projected to `p->second`. -/
def entries (o : ObserverT M E) : List E := o._objects.map Prod.snd

/-- The method `ObserverT::attach()`, at clock reading `now`. -/
def attach (o : ObserverT M E) (now : Int) : ObserverT M E :=
  { o with _watch := o._watch.start now }

/-- The method `ObserverT::detach()`, at clock reading `now`: the observer afterwards,
the state of the store afterwards and the calls made, in order. -/
def detach (ops : EntryOps E H M W) (o : ObserverT M E) (now : Int) (w : W) :
    ObserverT M E × W × List (Call E H M) :=
  let r := o._watch.stop now
  let lifetime := r.1
  ({ o with _watch := r.2 },
   o._objects.foldl (fun w p => ops.detach p.2 lifetime w) w,
   o._objects.map (fun p => Call.detach p.2 lifetime))

/-- The method `ObserverT::failed(exceptionName)`: the observer afterwards, the state of
the store afterwards and the calls made, in order. -/
def failed (ops : EntryOps E H M W) (o : ObserverT M E) (exceptionName : String) (w : W) :
    ObserverT M E × W × List (Call E H M) :=
  (o,
   o._objects.foldl (fun w p => ops.failed p.2 exceptionName w) w,
   o._objects.map (fun p => Call.failed p.2 exceptionName))

/-- The loop `while(p != objects.end())` of `ObserverT::update`. The first
argument is what is left of `objects` from `p` on; `q == _objects.end()` is
`_objects[q]? = none`. The comparisons `*p < q->second` and
`*p == q->second` are those of the entries' order. -/
def updateLoop [LinearOrder E] (ops : EntryOps E H M W) (helper : H) :
    List E → UpdateState E H M W → UpdateState E H M W
  | [], s => s
  | c :: p, s =>
    match _hq : s.obsv._objects[s.q]? with
    | none => updateLoop ops helper p (s.newObject ops helper c)
    | some m =>
      if c < m.2 then
        updateLoop ops helper p (s.newObject ops helper c)
      else if c = m.2 then
        updateLoop ops helper p s.sameObject
      else
        updateLoop ops helper (c :: p) s.removedObject
termination_by p s => (p.length, s.obsv._objects.length - s.q)
decreasing_by
  all_goals simp_wf
  · exact Prod.Lex.left _ _ (Nat.lt_succ_self _)
  · exact Prod.Lex.left _ _ (Nat.lt_succ_self _)
  · exact Prod.Lex.left _ _ (Nat.lt_succ_self _)
  · have hlt : s.q < s.obsv._objects.length := by
      rcases List.getElem?_eq_some.1 _hq with ⟨h, _⟩
      exact h
    apply Prod.Lex.right
    simp [UpdateState.removedObject, List.length_eraseIdx, hlt]
    omega

/-- The method `ObserverT::update(helper, objects)` run on observer `o` with the store in
state `w`: the state in which the loop exits. -/
def update [LinearOrder E] (ops : EntryOps E H M W) (helper : H) (o : ObserverT M E)
    (objects : List E) (w : W) : UpdateState E H M W :=
  updateLoop ops helper objects
    { obsv := o, q := 0, world := w, calls := [], iterations := 0, erased := [] }

end ObserverT

/-- What a sweep of `update` leaves behind, with the vector split at the iterator `q`:
`done` are the pairs `q` has passed, `rest` the pairs from `q` on. -/
structure Swept (E H M W : Type) where
  done : List (M × E)
  rest : List (M × E)
  world : W
  calls : List (Call E H M)

/-- The loop of `ObserverT::update` on a vector split at the iterator `q`: the second
argument is the part of `_objects` from `q` on. It is the form in which the
loop is reasoned about; `updateLoop_eq_sweep` relates it to `updateLoop`. -/
def sweep {E H M W : Type} [LinearOrder E] (ops : EntryOps E H M W) (helper : H) :
    List E → List (M × E) → W → Swept E H M W
  | [], suf, w => ⟨[], suf, w, []⟩
  | c :: p, [], w =>
    let r := ops.attach c helper w
    let t := sweep ops helper p [] r.2
    ⟨(r.1, c) :: t.done, t.rest, t.world, Call.attach c helper r.1 :: t.calls⟩
  | c :: p, m :: suf, w =>
    if c < m.2 then
      let r := ops.attach c helper w
      let t := sweep ops helper p (m :: suf) r.2
      ⟨(r.1, c) :: t.done, t.rest, t.world, Call.attach c helper r.1 :: t.calls⟩
    else if c = m.2 then
      let t := sweep ops helper p suf w
      ⟨m :: t.done, t.rest, t.world, t.calls⟩
    else
      sweep ops helper (c :: p) suf w
termination_by p suf => (p.length, suf.length)

/-! ## Sub-observers (`ObserverT::getObserver`) -/

/-- A call made while a sub-observer is built: `p->second->getMatching(mapName, helper)`
on a matched entry of the parent, with the entry it returned (`none`
for a null `EntryPtr`), or a call made by the `update` of the new
sub-observer. -/
inductive SubCall (E H M : Type) where
  | getMatching (entry : E) (mapName : String) (helper : H) (returned : Option E)
  | onEntry (call : Call E H M)
  deriving DecidableEq, Repr

/-- The call that the `update` of the sub-observer made on an entry. -/
def SubCall.updateCall {E H M : Type} : SubCall E H M → Option (Call E H M)
  | .getMatching _ _ _ _ => none
  | .onEntry call => some call

namespace ObserverT

variable {E H2 M2 M W : Type}

end ObserverT

/-! ## Observer factory (`ObserverFactoryT`) -/

/-- The part of `MetricsAdminI` that the factory calls after construction,
`_metrics->getMatching(_name, helper)`. The class is declared in
`Ice/MetricsAdminI.h`, outside this header, so the operation is a parameter
acting on the state `W` of the store. -/
structure MetricsAdminI (E H W : Type) where
  getMatching : String → H → W → List E × W

/-- The data members of `ObserverFactoryT<ObserverImplType>`. -/
structure ObserverFactoryT (E H W : Type) where
  _metrics : MetricsAdminI E H W
  _name : String

/-- An object behind an `Ice::Instrumentation::Observer` handle, by dynamic type:
`impl` is an object that `dynamic_cast<ObserverImplType*>` accepts, with its
`ObserverT` state; `other` is an observer of any other type, with its state. -/
inductive ObserverObject (M E X : Type) where
  | impl (o : ObserverT M E)
  | other (x : X)

/-- What a `getObserver` of the factory leaves: the returned handle (`none` for `0`,
`some a` for the object at address `a`), the heap of observer objects, the
state of the store and the calls made on entries. -/
structure FactoryResult (E H M W X : Type) where
  obsv : Option Nat
  heap : List (ObserverObject M E X)
  world : W
  calls : List (Call E H M)

namespace ObserverFactoryT

variable {E H M W X : Type}

/-- The cast `ObserverImplPtrType::dynamicCast(observer)`: the handle itself when it is not
null and its object is of the factory's observer type, the null handle
otherwise. -/
def dynamicCast (heap : List (ObserverObject M E X)) (observer : Option Nat) : Option Nat :=
  match observer with
  | none => none
  | some a =>
    match heap[a]? with
    | some (ObserverObject.impl _) => some a
    | _ => none

/-- The tail `obsv->update(helper, metricsObjects); return obsv;` of both `getObserver`
overloads, for a handle `obsv` to an object of the factory's observer
type. -/
def updateAt [LinearOrder E] (ops : EntryOps E H M W) (helper : H)
    (heap : List (ObserverObject M E X)) (obsv : Nat) (metricsObjects : List E) (w : W) :
    FactoryResult E H M W X :=
  match heap[obsv]? with
  | some (ObserverObject.impl o) =>
    let s := o.update ops helper metricsObjects w
    { obsv := some obsv, heap := heap.set obsv (ObserverObject.impl s.obsv),
      world := s.world, calls := s.calls }
  | _ => { obsv := some obsv, heap := heap, world := w, calls := [] }

/-- The overload `ObserverFactoryT::getObserver(helper, observer)`. -/
def getObserverExisting [LinearOrder E] (ops : EntryOps E H M W) (f : ObserverFactoryT E H W)
    (helper : H) (observer : Option Nat) (heap : List (ObserverObject M E X)) (w : W) :
    FactoryResult E H M W X :=
  let r := f._metrics.getMatching f._name helper w
  let metricsObjects := r.1
  if metricsObjects.isEmpty then
    { obsv := none, heap := heap, world := r.2, calls := [] }
  else
    match dynamicCast heap observer with
    | some obsv => updateAt ops helper heap obsv metricsObjects r.2
    | none =>
      updateAt ops helper (heap ++ [ObserverObject.impl ObserverT.new]) heap.length
        metricsObjects r.2

end ObserverFactoryT

/-! ## Scenarios and a concrete store -/

/-- Two successive `update` calls on a freshly constructed observer, first with the
candidates `A`, then with the candidates `B`: the loop states in which the
first and the second call exit. -/
def ObserverT.updateTwice {E H M W : Type} [LinearOrder E] (ops : EntryOps E H M W)
    (helper : H) (A B : List E) (w : W) : UpdateState E H M W × UpdateState E H M W :=
  let s1 := (ObserverT.new : ObserverT M E).update ops helper A w
  (s1, s1.obsv.update ops helper B s1.world)

/-- A concrete store for examples: entries are natural numbers in their usual order, the
state of the store counts the `attach` calls made so far, and the metric
object that `attach` returns for entry `e` as call number `w` is
`100 * w + e`. -/
def counterOps : EntryOps Nat Unit Nat Nat where
  attach := fun e _ w => (100 * w + e, w + 1)
  detach := fun _ _ w => w
  failed := fun _ _ w => w

/-- A sequence of `failed` calls on the same observer, one per exception name, with
nothing in between: the observer afterwards, the state of the store and
the calls made, in order. -/
def ObserverT.failedAll {E H M W : Type} (ops : EntryOps E H M W) (o : ObserverT M E)
    (exceptionNames : List String) (w : W) : ObserverT M E × W × List (Call E H M) :=
  exceptionNames.foldl
    (fun acc exceptionName =>
      let r := ObserverT.failed ops acc.1 exceptionName acc.2.1
      (r.1, r.2.1, acc.2.2 ++ r.2.2))
    (o, w, [])

/-- A concrete store for examples of the factory: the map `"Invocation"` matches every
helper with the entries `1` and `2`, every other map matches nothing. -/
def counterAdmin : MetricsAdminI Nat Unit Nat where
  getMatching := fun name _ w => (if name = "Invocation" then [1, 2] else [], w)

/-- A concrete store for examples in which every call on an entry leaves a mark: its
state counts the `attach`, `detach` and `failed` calls made so far, and the
metric object that `attach` returns for entry `e` as call number `w` is
`100 * w + e`. -/
def tallyOps : EntryOps Nat Unit Nat Nat where
  attach := fun e _ w => (100 * w + e, w + 1)
  detach := fun _ _ w => w + 1
  failed := fun _ _ w => w + 1

section Loop

variable {E H M W : Type}

theorem UpdateState.getElem?_split (pre suf : List (M × E)) :
    (pre ++ suf)[pre.length]? = suf.head? := by
  rw [List.getElem?_append_right (le_refl _)]
  cases suf <;> simp

theorem UpdateState.newObject_split (ops : EntryOps E H M W) (helper : H) (c : E)
    (pre suf : List (M × E)) (watch : StopWatch) (w : W) (cs : List (Call E H M))
    (it : Nat) (er : List (M × E)) :
    UpdateState.newObject ops helper c
        { obsv := ⟨pre ++ suf, watch⟩, q := pre.length, world := w, calls := cs,
          iterations := it, erased := er }
      = { obsv := ⟨(pre ++ [((ops.attach c helper w).1, c)]) ++ suf, watch⟩,
          q := (pre ++ [((ops.attach c helper w).1, c)]).length,
          world := (ops.attach c helper w).2,
          calls := cs ++ [Call.attach c helper (ops.attach c helper w).1],
          iterations := it + 1, erased := er } := by
  simp [UpdateState.newObject]

theorem UpdateState.sameObject_split (m : M × E)
    (pre suf : List (M × E)) (watch : StopWatch) (w : W) (cs : List (Call E H M))
    (it : Nat) (er : List (M × E)) :
    UpdateState.sameObject
        ({ obsv := ⟨pre ++ m :: suf, watch⟩, q := pre.length, world := w, calls := cs,
           iterations := it, erased := er } : UpdateState E H M W)
      = { obsv := ⟨(pre ++ [m]) ++ suf, watch⟩, q := (pre ++ [m]).length, world := w,
          calls := cs, iterations := it + 1, erased := er } := by
  simp [UpdateState.sameObject]

theorem UpdateState.removedObject_split (m : M × E)
    (pre suf : List (M × E)) (watch : StopWatch) (w : W) (cs : List (Call E H M))
    (it : Nat) (er : List (M × E)) :
    UpdateState.removedObject
        ({ obsv := ⟨pre ++ m :: suf, watch⟩, q := pre.length, world := w, calls := cs,
           iterations := it, erased := er } : UpdateState E H M W)
      = { obsv := ⟨pre ++ suf, watch⟩, q := pre.length, world := w,
          calls := cs, iterations := it + 1, erased := er ++ [m] } := by
  simp only [UpdateState.removedObject, UpdateState.getElem?_split, List.head?_cons,
    Option.toList]
  simp [List.eraseIdx_append_of_length_le]

variable [LinearOrder E]

theorem ObserverT.updateLoop_nil (ops : EntryOps E H M W) (helper : H)
    (s : UpdateState E H M W) : ObserverT.updateLoop ops helper [] s = s := by
  rw [ObserverT.updateLoop]

theorem ObserverT.updateLoop_new (ops : EntryOps E H M W) (helper : H) (c : E) (p : List E)
    (s : UpdateState E H M W)
    (h : (s.obsv._objects[s.q]?).all (fun m => decide (c < m.2)) = true) :
    ObserverT.updateLoop ops helper (c :: p) s
      = ObserverT.updateLoop ops helper p (s.newObject ops helper c) := by
  rw [ObserverT.updateLoop]
  split
  · rfl
  · next m hm =>
    rw [hm] at h
    simp at h
    simp [h]

theorem ObserverT.updateLoop_same (ops : EntryOps E H M W) (helper : H) (c : E) (p : List E)
    (s : UpdateState E H M W)
    (h : (s.obsv._objects[s.q]?).any (fun m => decide (c = m.2)) = true) :
    ObserverT.updateLoop ops helper (c :: p) s
      = ObserverT.updateLoop ops helper p s.sameObject := by
  rw [ObserverT.updateLoop]
  split
  · next hm => rw [hm] at h; simp at h
  · next m hm =>
    rw [hm] at h
    simp at h
    simp [h]

theorem ObserverT.updateLoop_removed (ops : EntryOps E H M W) (helper : H) (c : E)
    (p : List E) (s : UpdateState E H M W)
    (h : (s.obsv._objects[s.q]?).any (fun m => decide (m.2 < c)) = true) :
    ObserverT.updateLoop ops helper (c :: p) s
      = ObserverT.updateLoop ops helper (c :: p) s.removedObject := by
  rw [ObserverT.updateLoop]
  split
  · next hm => rw [hm] at h; simp at h
  · next m hm =>
    rw [hm] at h
    simp at h
    simp [not_lt_of_gt h, ne_of_gt h]

/-- The loop of `update`, started with `_objects = pre ++ suf` and `q` just after
`pre`, ends with the vector, the iterator, the store and the call log that
`sweep` computes from `suf`. -/
theorem ObserverT.updateLoop_eq_sweep (ops : EntryOps E H M W) (helper : H) (p : List E)
    (suf : List (M × E)) (w : W) (pre : List (M × E)) (watch : StopWatch)
    (cs : List (Call E H M)) (it : Nat) (er : List (M × E)) :
    let r := ObserverT.updateLoop ops helper p
      { obsv := ⟨pre ++ suf, watch⟩, q := pre.length, world := w, calls := cs,
        iterations := it, erased := er }
    let t := sweep ops helper p suf w
    r.obsv = ⟨pre ++ t.done ++ t.rest, watch⟩ ∧ r.q = pre.length + t.done.length ∧
      r.world = t.world ∧ r.calls = cs ++ t.calls := by
  induction p, suf, w using sweep.induct ops helper generalizing pre cs it er with
  | case1 suf w => simp [ObserverT.updateLoop_nil, sweep]
  | case2 c p w r ih =>
    have hstep := ObserverT.updateLoop_new ops helper c p
      { obsv := ⟨pre ++ [], watch⟩, q := pre.length, world := w, calls := cs,
        iterations := it, erased := er }
      (by simp only [UpdateState.getElem?_split]; simp)
    have ih1 := ih (pre ++ [(r.1, c)]) (cs ++ [Call.attach c helper r.1]) (it + 1) er
    simp only [r] at ih1 ⊢
    rw [hstep, UpdateState.newObject_split]
    rw [sweep]
    simp only [List.length_append, List.length_cons, List.length_nil] at ih1 ⊢
    simp only [List.append_assoc, List.singleton_append] at ih1 ⊢
    refine ⟨ih1.1, ?_, ih1.2.2.1, ih1.2.2.2⟩
    rw [ih1.2.1]; omega
  | case3 c p m suf w hlt r ih =>
    have hstep := ObserverT.updateLoop_new ops helper c p
      { obsv := ⟨pre ++ m :: suf, watch⟩, q := pre.length, world := w, calls := cs,
        iterations := it, erased := er }
      (by simp only [UpdateState.getElem?_split]; simp [hlt])
    have ih1 := ih (pre ++ [(r.1, c)]) (cs ++ [Call.attach c helper r.1]) (it + 1) er
    simp only [r] at ih1 ⊢
    rw [hstep, UpdateState.newObject_split]
    rw [sweep, if_pos hlt]
    simp only [List.length_append, List.length_cons, List.length_nil] at ih1 ⊢
    simp only [List.append_assoc, List.singleton_append] at ih1 ⊢
    refine ⟨ih1.1, ?_, ih1.2.2.1, ih1.2.2.2⟩
    rw [ih1.2.1]; omega
  | case4 p m suf w hlt ih =>
    have hstep := ObserverT.updateLoop_same ops helper m.2 p
      { obsv := ⟨pre ++ m :: suf, watch⟩, q := pre.length, world := w, calls := cs,
        iterations := it, erased := er }
      (by simp only [UpdateState.getElem?_split]; simp)
    have ih1 := ih (pre ++ [m]) cs (it + 1) er
    simp only [] at ih1 ⊢
    rw [hstep, UpdateState.sameObject_split]
    rw [sweep, if_neg hlt, if_pos rfl]
    simp only [List.length_append, List.length_cons, List.length_nil] at ih1 ⊢
    simp only [List.append_assoc, List.singleton_append] at ih1 ⊢
    refine ⟨ih1.1, ?_, ih1.2.2.1, ih1.2.2.2⟩
    rw [ih1.2.1]; omega
  | case5 c p m suf w hlt hne ih =>
    have hgt : m.2 < c := lt_of_le_of_ne (not_lt.1 hlt) (Ne.symm hne)
    have hstep := ObserverT.updateLoop_removed ops helper c p
      { obsv := ⟨pre ++ m :: suf, watch⟩, q := pre.length, world := w, calls := cs,
        iterations := it, erased := er }
      (by simp only [UpdateState.getElem?_split]; simp [hgt])
    have ih1 := ih pre cs (it + 1) (er ++ [m])
    simp only [] at ih1 ⊢
    rw [hstep, UpdateState.removedObject_split]
    rw [sweep, if_neg hlt, if_neg hne]
    exact ih1

/-- The result of `update` in terms of `sweep`, which starts at `q = begin()`. -/
theorem ObserverT.update_eq_sweep (ops : EntryOps E H M W) (helper : H) (o : ObserverT M E)
    (objects : List E) (w : W) :
    (o.update ops helper objects w).obsv
        = ⟨(sweep ops helper objects o._objects w).done
            ++ (sweep ops helper objects o._objects w).rest, o._watch⟩ ∧
      (o.update ops helper objects w).world = (sweep ops helper objects o._objects w).world ∧
      (o.update ops helper objects w).calls = (sweep ops helper objects o._objects w).calls := by
  have h := ObserverT.updateLoop_eq_sweep ops helper objects o._objects w [] o._watch [] 0 []
  simp only [List.nil_append, List.length_nil, Nat.zero_add] at h
  exact ⟨h.1, h.2.2.1, h.2.2.2⟩

/-- With the old pairs sorted by entry, the sweep leaves the candidates followed by the
old entries that order after every candidate. -/
theorem sweep_entries (ops : EntryOps E H M W) (helper : H) (p : List E)
    (suf : List (M × E)) (w : W) (hsuf : List.Pairwise (· < ·) (suf.map Prod.snd)) :
    ((sweep ops helper p suf w).done ++ (sweep ops helper p suf w).rest).map Prod.snd
      = p ++ (suf.map Prod.snd).filter (fun e => p.all (fun c => decide (c < e))) := by
  induction p, suf, w using sweep.induct ops helper with
  | case1 suf w => simp [sweep]
  | case2 c p w r ih =>
    rw [sweep]
    simpa using ih hsuf
  | case3 c p m suf w hlt r ih =>
    rw [sweep, if_pos hlt]
    have ih1 := ih hsuf
    simp only [List.cons_append, List.map_cons, ih1, List.cons.injEq, true_and,
      List.append_cancel_left_eq]
    apply List.filter_congr
    intro e he
    have hce : c < e := by
      rw [List.map_cons, List.pairwise_cons] at hsuf
      rcases List.mem_cons.1 he with h | h
      · rw [h]; exact hlt
      · exact lt_trans hlt (hsuf.1 e h)
    simp [hce]
  | case4 p m suf w hlt ih =>
    rw [sweep, if_neg hlt, if_pos rfl]
    rw [List.map_cons, List.pairwise_cons] at hsuf
    have ih1 := ih hsuf.2
    simp only [List.cons_append, List.map_cons, ih1, List.cons.injEq, true_and,
      List.append_cancel_left_eq]
    rw [List.filter_cons_of_neg (by simp)]
    apply List.filter_congr
    intro e he
    simp [hsuf.1 e he]
  | case5 c p m suf w hlt hne ih =>
    rw [sweep, if_neg hlt, if_neg hne]
    rw [List.map_cons, List.pairwise_cons] at hsuf
    rw [ih hsuf.2, List.map_cons, List.filter_cons_of_neg (by simp [hlt])]

/-- Every pair a sweep leaves is an old pair or was made by an `attach` call of the
sweep. -/
theorem sweep_origin (ops : EntryOps E H M W) (helper : H) (p : List E)
    (suf : List (M × E)) (w : W) :
    ∀ x ∈ (sweep ops helper p suf w).done ++ (sweep ops helper p suf w).rest,
      x ∈ suf ∨ Call.attach x.2 helper x.1 ∈ (sweep ops helper p suf w).calls := by
  induction p, suf, w using sweep.induct ops helper with
  | case1 suf w => simp [sweep]
  | case2 c p w r ih =>
    rw [sweep]
    intro x hx
    rcases List.mem_cons.1 hx with h | h
    · right; rw [h]; exact List.mem_cons_self _ _
    · rcases ih x h with h1 | h1
      · exact Or.inl h1
      · exact Or.inr (List.mem_cons_of_mem _ h1)
  | case3 c p m suf w hlt r ih =>
    rw [sweep, if_pos hlt]
    intro x hx
    rcases List.mem_cons.1 hx with h | h
    · right; rw [h]; exact List.mem_cons_self _ _
    · rcases ih x h with h1 | h1
      · exact Or.inl h1
      · exact Or.inr (List.mem_cons_of_mem _ h1)
  | case4 p m suf w hlt ih =>
    rw [sweep, if_neg hlt, if_pos rfl]
    intro x hx
    rcases List.mem_cons.1 hx with h | h
    · left; rw [h]; exact List.mem_cons_self _ _
    · rcases ih x h with h1 | h1
      · exact Or.inl (List.mem_cons_of_mem _ h1)
      · exact Or.inr h1
  | case5 c p m suf w hlt hne ih =>
    rw [sweep, if_neg hlt, if_neg hne]
    intro x hx
    rcases ih x hx with h1 | h1
    · exact Or.inl (List.mem_cons_of_mem _ h1)
    · exact Or.inr h1

/-- With candidates and old pairs both sorted, a sweep calls `attach` on the candidates
that are not among the old entries, once each and in the order of the
candidates. -/
theorem sweep_calls_entries (ops : EntryOps E H M W) (helper : H) (p : List E)
    (suf : List (M × E)) (w : W) (hp : List.Pairwise (· < ·) p)
    (hsuf : List.Pairwise (· < ·) (suf.map Prod.snd)) :
    (sweep ops helper p suf w).calls.map Call.entry
      = p.filter (fun c => decide (c ∉ suf.map Prod.snd)) := by
  induction p, suf, w using sweep.induct ops helper with
  | case1 suf w => simp [sweep]
  | case2 c p w r ih =>
    rw [sweep]
    rw [List.pairwise_cons] at hp
    simpa [Call.entry] using ih hp.2 hsuf
  | case3 c p m suf w hlt r ih =>
    rw [sweep, if_pos hlt]
    have hsuf1 := hsuf
    rw [List.map_cons, List.pairwise_cons] at hsuf1
    rw [List.pairwise_cons] at hp
    have hc : c ∉ (m :: suf).map Prod.snd := by
      intro hmem
      rcases List.mem_cons.1 hmem with h | h
      · exact absurd hlt (by rw [h]; exact lt_irrefl _)
      · exact absurd (lt_trans hlt (hsuf1.1 c h)) (lt_irrefl _)
    rw [List.filter_cons_of_pos (by simpa using hc)]
    simp only [List.map_cons, Call.entry, ih hp.2 hsuf]
  | case4 p m suf w hlt ih =>
    rw [sweep, if_neg hlt, if_pos rfl]
    rw [List.map_cons, List.pairwise_cons] at hsuf
    rw [List.pairwise_cons] at hp
    rw [List.filter_cons_of_neg (by simp)]
    simp only [ih hp.2 hsuf.2]
    apply List.filter_congr
    intro e he
    have hne : e ≠ m.2 := ne_of_gt (hp.1 e he)
    simp [hne]
  | case5 c p m suf w hlt hne ih =>
    rw [sweep, if_neg hlt, if_neg hne]
    have hgt : m.2 < c := lt_of_le_of_ne (not_lt.1 hlt) (Ne.symm hne)
    rw [List.map_cons, List.pairwise_cons] at hsuf
    rw [ih hp hsuf.2]
    apply List.filter_congr
    intro e he
    have hge : m.2 < e := by
      rcases List.mem_cons.1 he with h | h
      · rw [h]; exact hgt
      · exact lt_trans hgt ((List.pairwise_cons.1 hp).1 e h)
    simp [ne_of_gt hge]

/-- With candidates and old pairs both sorted, an old pair whose entry is a candidate is
passed by the sweep and kept as it is. -/
theorem sweep_keeps (ops : EntryOps E H M W) (helper : H) (p : List E)
    (suf : List (M × E)) (w : W) (hp : List.Pairwise (· < ·) p)
    (hsuf : List.Pairwise (· < ·) (suf.map Prod.snd)) :
    ∀ x ∈ suf, x.2 ∈ p → x ∈ (sweep ops helper p suf w).done := by
  induction p, suf, w using sweep.induct ops helper with
  | case1 suf w => simp
  | case2 c p w r ih => simp
  | case3 c p m suf w hlt r ih =>
    rw [sweep, if_pos hlt]
    intro x hx hxp
    have hsuf1 := hsuf
    rw [List.map_cons, List.pairwise_cons] at hsuf1
    have hcx : c < x.2 := by
      rcases List.mem_cons.1 hx with h | h
      · rw [h]; exact hlt
      · exact lt_trans hlt (hsuf1.1 x.2 (List.mem_map_of_mem _ h))
    rcases List.mem_cons.1 hxp with h | h
    · exact absurd hcx (by rw [h]; exact lt_irrefl _)
    · exact List.mem_cons_of_mem _ (ih (List.pairwise_cons.1 hp).2 hsuf x hx h)
  | case4 p m suf w hlt ih =>
    rw [sweep, if_neg hlt, if_pos rfl]
    intro x hx hxp
    rw [List.map_cons, List.pairwise_cons] at hsuf
    rcases List.mem_cons.1 hx with h | h
    · rw [h]; exact List.mem_cons_self _ _
    · have hmx : m.2 < x.2 := hsuf.1 x.2 (List.mem_map_of_mem _ h)
      rcases List.mem_cons.1 hxp with h2 | h2
      · exact absurd hmx (by rw [h2]; exact lt_irrefl _)
      · exact List.mem_cons_of_mem _ (ih (List.pairwise_cons.1 hp).2 hsuf.2 x h h2)
  | case5 c p m suf w hlt hne ih =>
    rw [sweep, if_neg hlt, if_neg hne]
    have hgt : m.2 < c := lt_of_le_of_ne (not_lt.1 hlt) (Ne.symm hne)
    intro x hx hxp
    rw [List.map_cons, List.pairwise_cons] at hsuf
    rcases List.mem_cons.1 hx with h | h
    · exfalso
      rw [h] at hxp
      rcases List.mem_cons.1 hxp with h2 | h2
      · exact hne h2.symm
      · exact lt_asymm hgt ((List.pairwise_cons.1 hp).1 m.2 h2)
    · exact ih hp hsuf.2 x h hxp

end Loop

/-! ## Reconciliation (`ObserverT::update`) -/

section Reconciliation

variable {E H M W : Type} [LinearOrder E]

/-- The first `update` of a fresh observer leaves exactly the candidates as matched
entries. -/
theorem ObserverT.update_new_entries (ops : EntryOps E H M W) (helper : H) (A : List E)
    (w : W) :
    ((ObserverT.new : ObserverT M E).update ops helper A w).obsv.entries = A := by
  have h := (ObserverT.update_eq_sweep ops helper (ObserverT.new : ObserverT M E) A w).1
  have h2 := sweep_entries ops helper A ([] : List (M × E)) w (by simp)
  rw [ObserverT.entries, h]
  simpa [ObserverT.new] using h2

/-- C1, evaluated on the code: after `update` with the candidates `[1, 2, 3]` and then
`update` with the candidates `[1]` on a fresh observer, the matched entries
are still `[1, 2, 3]`, not `[1]`: the loop stops when the candidates run out
and the pairs behind the iterator `q` are never erased. -/
theorem C1_second_update_keeps_trailing_entries :
    (ObserverT.updateTwice counterOps () [1, 2, 3] [1] 0).2.obsv.entries = [1, 2, 3] ∧
      (ObserverT.updateTwice counterOps () [1, 2, 3] [1] 0).2.obsv.entries ≠ [1] := by
  simp [ObserverT.updateTwice, ObserverT.update, ObserverT.updateLoop_nil,
    ObserverT.updateLoop_new, ObserverT.updateLoop_same, ObserverT.updateLoop_removed,
    ObserverT.new, ObserverT.entries, UpdateState.newObject, UpdateState.sameObject,
    UpdateState.removedObject, counterOps]

/-- C2: for strictly ascending `A` and `B` applied by two successive `update` calls on a
fresh observer, every entry `e` of both `A` and `B` is still matched after the
second call, the pairs holding `e` are the same after both calls, the metric
object of such a pair is the one that `attach` returned for `e` during the
first call, and the second call makes no call on `e`. -/
theorem C2_common_entries_keep_metric_object (ops : EntryOps E H M W) (helper : H)
    (A B : List E) (w : W) (hA : List.Pairwise (· < ·) A) (hB : List.Pairwise (· < ·) B) :
    ∀ e ∈ A, e ∈ B →
      (∃ m, (m, e) ∈ (ObserverT.updateTwice ops helper A B w).2.obsv._objects) ∧
      (∀ m, (m, e) ∈ (ObserverT.updateTwice ops helper A B w).2.obsv._objects ↔
        (m, e) ∈ (ObserverT.updateTwice ops helper A B w).1.obsv._objects) ∧
      (∀ m, (m, e) ∈ (ObserverT.updateTwice ops helper A B w).2.obsv._objects →
        Call.attach e helper m ∈ (ObserverT.updateTwice ops helper A B w).1.calls) ∧
      (∀ call ∈ (ObserverT.updateTwice ops helper A B w).2.calls, call.entry ≠ e) := by
  intro e heA heB
  simp only [ObserverT.updateTwice]
  generalize hs1 : (ObserverT.new : ObserverT M E).update ops helper A w = s1
  have hent : s1.obsv.entries = A := by
    rw [← hs1]; exact ObserverT.update_new_entries ops helper A w
  have hsorted : List.Pairwise (· < ·) (s1.obsv._objects.map Prod.snd) := by
    rw [ObserverT.entries] at hent; rw [hent]; exact hA
  obtain ⟨hobj1, _, hcalls1⟩ :=
    ObserverT.update_eq_sweep ops helper (ObserverT.new : ObserverT M E) A w
  rw [hs1] at hobj1 hcalls1
  obtain ⟨hobj2, _, hcalls2⟩ := ObserverT.update_eq_sweep ops helper s1.obsv B s1.world
  generalize hs2 : s1.obsv.update ops helper B s1.world = s2 at hobj2 hcalls2
  generalize ht2 : sweep ops helper B s1.obsv._objects s1.world = t2 at hobj2 hcalls2
  have hnocall : ∀ call ∈ s2.calls, call.entry ≠ e := by
    intro call hcall hce
    have hmem : call.entry ∈ s2.calls.map Call.entry := List.mem_map_of_mem _ hcall
    rw [hcalls2, ← ht2, sweep_calls_entries ops helper B _ _ hB hsorted] at hmem
    have hnot := (List.mem_filter.1 hmem).2
    rw [hce] at hnot
    have : e ∈ s1.obsv._objects.map Prod.snd := by
      rw [ObserverT.entries] at hent; rw [hent]; exact heA
    simp [this] at hnot
  have hback : ∀ m, (m, e) ∈ s2.obsv._objects → (m, e) ∈ s1.obsv._objects := by
    intro m hm
    rw [hobj2] at hm
    have ho := sweep_origin ops helper B s1.obsv._objects s1.world (m, e)
      (by rw [ht2]; exact hm)
    rcases ho with h | h
    · exact h
    · rw [ht2, ← hcalls2] at h
      exact absurd rfl (hnocall _ h)
  have hforth : ∀ m, (m, e) ∈ s1.obsv._objects → (m, e) ∈ s2.obsv._objects := by
    intro m hm
    have hk := sweep_keeps ops helper B s1.obsv._objects s1.world hB hsorted (m, e) hm heB
    rw [hobj2, ← ht2]
    exact List.mem_append_left _ hk
  refine ⟨?_, fun m => ⟨hback m, hforth m⟩, ?_, hnocall⟩
  · have : e ∈ s1.obsv._objects.map Prod.snd := by
      rw [ObserverT.entries] at hent; rw [hent]; exact heA
    obtain ⟨x, hx, hxe⟩ := List.mem_map.1 this
    refine ⟨x.1, hforth x.1 ?_⟩
    rw [← hxe]; exact hx
  · intro m hm
    have hm1 := hback m hm
    rw [hobj1] at hm1
    have ho := sweep_origin ops helper A ([] : List (M × E)) w (m, e)
      (by simpa [ObserverT.new] using hm1)
    rcases ho with h | h
    · simp at h
    · rw [hcalls1]; simpa [ObserverT.new] using h

/-- Witness for C2 on the concrete store, with `A = [1, 2, 3]` and `B = [1, 3]`. -/
theorem C2_common_entries_keep_metric_object_witness :
    List.Pairwise (· < ·) [1, 2, 3] ∧ List.Pairwise (· < ·) [1, 3] ∧
    ∀ e ∈ [1, 2, 3], e ∈ [1, 3] →
      (∃ m, (m, e) ∈ (ObserverT.updateTwice counterOps () [1, 2, 3] [1, 3] 0).2.obsv._objects) ∧
      (∀ m, (m, e) ∈ (ObserverT.updateTwice counterOps () [1, 2, 3] [1, 3] 0).2.obsv._objects ↔
        (m, e) ∈ (ObserverT.updateTwice counterOps () [1, 2, 3] [1, 3] 0).1.obsv._objects) ∧
      (∀ m, (m, e) ∈ (ObserverT.updateTwice counterOps () [1, 2, 3] [1, 3] 0).2.obsv._objects →
        Call.attach e () m ∈ (ObserverT.updateTwice counterOps () [1, 2, 3] [1, 3] 0).1.calls) ∧
      (∀ call ∈ (ObserverT.updateTwice counterOps () [1, 2, 3] [1, 3] 0).2.calls,
        call.entry ≠ e) :=
  ⟨by decide, by decide,
    C2_common_entries_keep_metric_object counterOps () [1, 2, 3] [1, 3] 0
      (by decide) (by decide)⟩

/-- C4: if the matched entries of the observer are strictly ascending and the candidates
are strictly ascending, the matched entries after `update` are strictly
ascending again, hence sorted and without a duplicate entry. -/
theorem C4_update_preserves_strictly_ascending (ops : EntryOps E H M W) (helper : H)
    (o : ObserverT M E) (B : List E) (w : W)
    (hA : List.Pairwise (· < ·) o.entries) (hB : List.Pairwise (· < ·) B) :
    List.Pairwise (· < ·) (o.update ops helper B w).obsv.entries := by
  have hobj := (ObserverT.update_eq_sweep ops helper o B w).1
  rw [ObserverT.entries, hobj]
  simp only []
  rw [sweep_entries ops helper B o._objects w hA, List.pairwise_append]
  refine ⟨hB, List.Pairwise.sublist (List.filter_sublist _) hA, ?_⟩
  intro a ha b hb
  have hall := (List.mem_filter.1 hb).2
  rw [List.all_eq_true] at hall
  simpa using hall a ha

/-- Witness for C4: the observer left by a first `update` with `[1, 5]`, updated with
the candidates `[3]`. -/
theorem C4_update_preserves_strictly_ascending_witness :
    List.Pairwise (· < ·) (⟨[(10, 1), (50, 5)], ⟨none⟩⟩ : ObserverT Nat Nat).entries ∧
    List.Pairwise (· < ·) [3] ∧
    List.Pairwise (· < ·)
      ((⟨[(10, 1), (50, 5)], ⟨none⟩⟩ : ObserverT Nat Nat).update counterOps () [3] 0).obsv.entries :=
  ⟨by decide, by decide,
    C4_update_preserves_strictly_ascending counterOps () ⟨[(10, 1), (50, 5)], ⟨none⟩⟩ [3] 0
      (by decide) (by decide)⟩

/-- C5, evaluated on the code: an observer matched to the entries `[1, 2]`, updated
with the candidates `[1]`, is still matched to entry `2`, which is not a
candidate. -/
theorem C5_matched_entry_outside_candidates :
    List.Pairwise (· < ·) (⟨[(10, 1), (20, 2)], ⟨none⟩⟩ : ObserverT Nat Nat).entries ∧
    List.Pairwise (· < ·) [1] ∧
    2 ∈ ((⟨[(10, 1), (20, 2)], ⟨none⟩⟩ : ObserverT Nat Nat).update counterOps () [1] 0).obsv.entries ∧
    2 ∉ [1] := by
  refine ⟨by decide, by decide, ?_, by decide⟩
  simp [ObserverT.update, ObserverT.updateLoop_nil,
    ObserverT.updateLoop_new, ObserverT.updateLoop_same, ObserverT.updateLoop_removed,
    ObserverT.entries, UpdateState.newObject, UpdateState.sameObject,
    UpdateState.removedObject, counterOps]

/-- C6, evaluated on the code: after `update` with `[1, 2]` and then `update` with `[1]`
on a fresh observer, entry `2` is in the first candidate list and not in the
second, and yet `detach()` calls `detach` on it and `failed("timeout")` calls
`failed` on it. -/
theorem C6_dropped_entry_still_notified :
    2 ∈ [1, 2] ∧ 2 ∉ [1] ∧
    Call.detach 2 7 ∈
      (ObserverT.detach counterOps
        ((ObserverT.updateTwice counterOps () [1, 2] [1] 0).2.obsv.attach 5) 12
        (ObserverT.updateTwice counterOps () [1, 2] [1] 0).2.world).2.2 ∧
    Call.failed 2 "timeout" ∈
      (ObserverT.failed counterOps
        (ObserverT.updateTwice counterOps () [1, 2] [1] 0).2.obsv "timeout"
        (ObserverT.updateTwice counterOps () [1, 2] [1] 0).2.world).2.2 := by
  refine ⟨by decide, by decide, ?_, ?_⟩ <;>
  simp [ObserverT.updateTwice, ObserverT.update, ObserverT.updateLoop_nil,
    ObserverT.updateLoop_new, ObserverT.updateLoop_same, ObserverT.updateLoop_removed,
    ObserverT.new, ObserverT.detach, ObserverT.failed, ObserverT.attach, StopWatch.start,
    StopWatch.stop, UpdateState.newObject, UpdateState.sameObject,
    UpdateState.removedObject, counterOps]

end Reconciliation

/-! ## Attribute resolution (`AttributeResolverT`) -/

section Registry

variable {Helper O I : Type}

theorem AttributeResolverT.find_eq_none_iff (reg : AttributeResolverT Helper O I)
    (name : String) : reg.find name = none ↔ name ∉ reg._attributes.map Prod.fst := by
  unfold AttributeResolverT.find
  constructor
  · intro h
    split at h
    · simp at h
    · next hnone =>
      intro hmem
      obtain ⟨kv, hkv, hk⟩ := List.mem_map.1 hmem
      have := List.find?_eq_none.1 hnone kv hkv
      simp [hk] at this
  · intro h
    split
    · next kv hsome =>
      exfalso
      apply h
      have h1 := List.mem_of_find?_eq_some hsome
      have h2 := List.find?_some hsome
      simp at h2
      rw [← h2]
      exact List.mem_map_of_mem _ h1
    · rfl

/-- An `add` under a name that is not registered registers the resolver. -/
theorem AttributeResolverT.find_add_self (reg : AttributeResolverT Helper O I) (name : String)
    (r : Resolver Helper O I) (h : reg.find name = none) :
    (reg.add name r).find name = some r := by
  have hnone : reg._attributes.find? (fun kv => kv.1 == name) = none := by
    unfold AttributeResolverT.find at h
    split at h
    · simp at h
    · assumption
  simp only [AttributeResolverT.add, AttributeResolverT.insert, h]
  simp [AttributeResolverT.find, List.find?_append, hnone]

/-- An `add` leaves what is registered under an already registered name as it is. -/
theorem AttributeResolverT.find_add_of_some (reg : AttributeResolverT Helper O I)
    (name name' : String) (r r' : Resolver Helper O I) (h : reg.find name = some r) :
    (reg.add name' r').find name = some r := by
  simp only [AttributeResolverT.add, AttributeResolverT.insert]
  split
  · exact h
  · unfold AttributeResolverT.find at h ⊢
    split at h
    · next kv hsome =>
      simp only [List.find?_append, hsome, Option.or]
      exact h
    · simp at h

/-- An `add` under another name leaves an unregistered name unregistered. -/
theorem AttributeResolverT.find_add_of_ne (reg : AttributeResolverT Helper O I)
    (name name' : String) (r' : Resolver Helper O I) (h : reg.find name = none)
    (hne : name' ≠ name) : (reg.add name' r').find name = none := by
  rw [AttributeResolverT.find_eq_none_iff] at h ⊢
  simp only [AttributeResolverT.add, AttributeResolverT.insert]
  split
  · exact h
  · simp only [List.map_append, List.map_cons, List.map_nil, List.mem_append,
      List.mem_singleton, not_or]
    exact ⟨h, fun heq => hne heq.symm⟩

theorem AttributeResolverT.find_addAll_of_some (adds : List (String × Resolver Helper O I))
    (reg : AttributeResolverT Helper O I) (name : String) (r : Resolver Helper O I)
    (h : reg.find name = some r) : (reg.addAll adds).find name = some r := by
  induction adds generalizing reg with
  | nil => exact h
  | cons a adds ih =>
    simp only [AttributeResolverT.addAll, List.foldl_cons]
    exact ih _ (AttributeResolverT.find_add_of_some reg name a.1 r a.2 h)

theorem AttributeResolverT.find_addAll_of_not_mem (adds : List (String × Resolver Helper O I))
    (reg : AttributeResolverT Helper O I) (name : String)
    (h : reg.find name = none) (hadds : name ∉ adds.map Prod.fst) :
    (reg.addAll adds).find name = none := by
  induction adds generalizing reg with
  | nil => exact h
  | cons a adds ih =>
    simp only [List.map_cons, List.mem_cons, not_or] at hadds
    simp only [AttributeResolverT.addAll, List.foldl_cons]
    exact ih _ (AttributeResolverT.find_add_of_ne reg name a.1 a.2 h
      (fun heq => hadds.1 heq.symm)) hadds.2

theorem AttributeResolverT.find_empty (name : String) :
    (AttributeResolverT.empty : AttributeResolverT Helper O I).find name = none := rfl

theorem AttributeResolverT.call_of_find_none (reg : AttributeResolverT Helper O I)
    (helper : Helper) (name : String) (h : reg.find name = none) :
    reg.call helper name = if name = "none" then ("", []) else ("unknown", []) := by
  simp only [AttributeResolverT.call, h]

theorem AttributeResolverT.call_of_find_some (reg : AttributeResolverT Helper O I)
    (helper : Helper) (name : String) (r : Resolver Helper O I) (h : reg.find name = some r) :
    reg.call helper name = ((r.call helper).1, Access.resolver name :: (r.call helper).2) := by
  simp only [AttributeResolverT.call, h]

/-- The call of a name first registered with resolver `r`, whatever is added later. -/
theorem AttributeResolverT.call_registered (adds more : List (String × Resolver Helper O I))
    (name : String) (r : Resolver Helper O I) (helper : Helper)
    (h : name ∉ adds.map Prod.fst) :
    (((AttributeResolverT.empty.addAll adds).add name r).addAll more).call helper name
      = ((r.call helper).1, Access.resolver name :: (r.call helper).2) := by
  have h0 := AttributeResolverT.find_addAll_of_not_mem adds _ _
    (AttributeResolverT.find_empty name :
      (AttributeResolverT.empty : AttributeResolverT Helper O I).find name = none) h
  exact AttributeResolverT.call_of_find_some _ _ _ r
    (AttributeResolverT.find_addAll_of_some more _ _ _
      (AttributeResolverT.find_add_self _ name r h0))

/-- C7 as stated fails: in the registry built by `add("none", r)`, where `r` reads a
string member whose value is `"configured"`, resolving `"none"` runs `r`
and returns `"configured"`, not the empty string. -/
theorem C7_none_registered_counterexample :
    (((AttributeResolverT.empty : AttributeResolverT Unit Unit Unit).add "none"
        (Resolver.HelperMemberResolver (fun _ => Value.string "configured"))).call ()
        "none").1 = "configured" ∧
      (((AttributeResolverT.empty : AttributeResolverT Unit Unit Unit).add "none"
        (Resolver.HelperMemberResolver (fun _ => Value.string "configured"))).call ()
        "none").1 ≠ "" := by
  rw [AttributeResolverT.call_of_find_some _ _ _ _
    (AttributeResolverT.find_add_self _ _ _ (AttributeResolverT.find_empty _))]
  simp [Resolver.call, AttributeResolverT.toString]

/-- C7, amended: for every sequence of `add` calls none of which registers a resolver
under the name `"none"`, and every helper, resolving `"none"` returns the empty
string and invokes no resolver; and once a resolver `r` is registered under
`"none"`, whatever is added afterwards, resolving `"none"` finds `r`, runs it
and returns its value. -/
theorem C7_none_resolves_empty_unless_registered
    (adds : List (String × Resolver Helper O I)) (helper : Helper)
    (h : "none" ∉ adds.map Prod.fst) :
    (AttributeResolverT.empty.addAll adds).call helper "none" = ("", []) ∧
      ∀ (r : Resolver Helper O I) (more : List (String × Resolver Helper O I)),
        (((AttributeResolverT.empty.addAll adds).add "none" r).addAll more).call helper "none"
          = ((r.call helper).1, Access.resolver "none" :: (r.call helper).2) := by
  constructor
  · rw [AttributeResolverT.call_of_find_none _ _ _
      (AttributeResolverT.find_addAll_of_not_mem adds _ _ (AttributeResolverT.find_empty _) h)]
    simp
  · intro r more
    exact AttributeResolverT.call_registered adds more "none" r helper h

/-- Witness for the amended C7: a registry with one attribute, `"id"`; resolving `"none"`
gives the empty string, and after `add("none", r)` with `r` reading the
string `"configured"` it gives `"configured"`. -/
theorem C7_none_resolves_empty_unless_registered_witness :
    "none" ∉ ([("id", Resolver.HelperMemberResolver (fun _ => Value.string "x"))] :
        List (String × Resolver Unit Unit Unit)).map Prod.fst ∧
      (AttributeResolverT.empty.addAll
        ([("id", Resolver.HelperMemberResolver (fun _ => Value.string "x"))] :
          List (String × Resolver Unit Unit Unit))).call () "none" = ("", []) ∧
      ((((AttributeResolverT.empty.addAll
        ([("id", Resolver.HelperMemberResolver (fun _ => Value.string "x"))] :
          List (String × Resolver Unit Unit Unit))).add "none"
          (Resolver.HelperMemberResolver (fun _ => Value.string "configured"))).addAll
          []).call () "none")
        = ("configured", [Access.resolver "none", Access.helperMember]) :=
  ⟨by decide,
    (C7_none_resolves_empty_unless_registered _ () (by decide)).1,
    (C7_none_resolves_empty_unless_registered _ () (by decide)).2
      (Resolver.HelperMemberResolver (fun _ => Value.string "configured")) []⟩

/-- C8: for every sequence of `add` calls, every helper and every name that none of the
calls registers and that is not `"none"`, resolving the name returns exactly
`"unknown"` and invokes no resolver. -/
theorem C8_unregistered_resolves_unknown
    (adds : List (String × Resolver Helper O I)) (helper : Helper) (name : String)
    (h : name ∉ adds.map Prod.fst) (hnone : name ≠ "none") :
    (AttributeResolverT.empty.addAll adds).call helper name = ("unknown", []) := by
  rw [AttributeResolverT.call_of_find_none _ _ _
    (AttributeResolverT.find_addAll_of_not_mem adds _ _ (AttributeResolverT.find_empty _) h)]
  simp [hnone]

/-- Witness for C8: the name `"parent"` in a registry with the one attribute `"id"`. -/
theorem C8_unregistered_resolves_unknown_witness :
    "parent" ∉ ([("id", Resolver.HelperMemberResolver (fun _ => Value.string "x"))] :
        List (String × Resolver Unit Unit Unit)).map Prod.fst ∧
      "parent" ≠ "none" ∧
      (AttributeResolverT.empty.addAll
        ([("id", Resolver.HelperMemberResolver (fun _ => Value.string "x"))] :
          List (String × Resolver Unit Unit Unit))).call () "parent" = ("unknown", []) :=
  ⟨by decide, by decide, C8_unregistered_resolves_unknown _ () "parent" (by decide) (by decide)⟩

/-- C9 as stated fails: after `add("id", r1)` and `add("id", r2)` on an empty registry,
where `r1` yields `"first"` and `r2` yields `"second"`, resolving `"id"`
returns `"first"`, the value of `r1`, and not the value of `r2`. -/
theorem C9_last_registration_counterexample :
    ((((AttributeResolverT.empty : AttributeResolverT Unit Unit Unit).add "id"
        (Resolver.HelperMemberResolver (fun _ => Value.string "first"))).add "id"
        (Resolver.HelperMemberResolver (fun _ => Value.string "second"))).call () "id").1
      = "first" ∧
    ((((AttributeResolverT.empty : AttributeResolverT Unit Unit Unit).add "id"
        (Resolver.HelperMemberResolver (fun _ => Value.string "first"))).add "id"
        (Resolver.HelperMemberResolver (fun _ => Value.string "second"))).call () "id").1
      ≠ ((Resolver.HelperMemberResolver (fun _ => Value.string "second") :
          Resolver Unit Unit Unit).call ()).1 := by
  rw [AttributeResolverT.call_of_find_some _ _ _ _
    (AttributeResolverT.find_add_of_some _ _ _ _ _
      (AttributeResolverT.find_add_self _ _ _ (AttributeResolverT.find_empty _)))]
  simp [Resolver.call, AttributeResolverT.toString]

/-- C9, amended: registering two resolvers under the same name keeps the first. For every
name not registered before and every two resolvers `r1` then `r2` added under
it, the second `add` leaves the registry as the first left it, and a later
resolve of the name, after any further `add` calls, returns the value produced
by `r1`. -/
theorem C9_first_registration_wins
    (adds more : List (String × Resolver Helper O I)) (name : String)
    (r1 r2 : Resolver Helper O I) (helper : Helper) (h : name ∉ adds.map Prod.fst) :
    ((AttributeResolverT.empty.addAll adds).add name r1).add name r2
        = (AttributeResolverT.empty.addAll adds).add name r1 ∧
      (((((AttributeResolverT.empty.addAll adds).add name r1).add name r2).addAll
        more).call helper name).1 = (r1.call helper).1 := by
  have h0 := AttributeResolverT.find_addAll_of_not_mem adds _ _
    (AttributeResolverT.find_empty name :
      (AttributeResolverT.empty : AttributeResolverT Helper O I).find name = none) h
  have h1 := AttributeResolverT.find_add_self _ name r1 h0
  constructor
  · conv_lhs => rw [AttributeResolverT.add, AttributeResolverT.insert]
    rw [h1]
  · rw [AttributeResolverT.call_of_find_some _ _ _ r1
      (AttributeResolverT.find_addAll_of_some more _ _ _
        (AttributeResolverT.find_add_of_some _ _ _ _ r2 h1))]

/-- Witness for the amended C9 on an empty registry. -/
theorem C9_first_registration_wins_witness :
    "id" ∉ ([] : List (String × Resolver Unit Unit Unit)).map Prod.fst ∧
      ((((((AttributeResolverT.empty : AttributeResolverT Unit Unit Unit).addAll []).add "id"
          (Resolver.HelperMemberResolver (fun _ => Value.string "first"))).add "id"
          (Resolver.HelperMemberResolver (fun _ => Value.string "second"))).addAll
          []).call () "id").1
        = ((Resolver.HelperMemberResolver (fun _ => Value.string "first") :
            Resolver Unit Unit Unit).call ()).1 :=
  ⟨by decide, (C9_first_registration_wins [] [] "id" _ _ () (by decide)).2⟩

/-- C10: for every name registered with a direct resolver (helper member or helper
member function) when no earlier `add` used that name, and whatever is added
afterwards, resolving the name returns `toString` of the value the accessor
reads from the helper; `toString` renders `true` as `"true"`, `false` as
`"false"` and returns a string unchanged. -/
theorem C10_direct_resolver_stringifies
    (adds more : List (String × Resolver Helper O I)) (name : String)
    (member : Helper → Value) (helper : Helper) (h : name ∉ adds.map Prod.fst) :
    ((((AttributeResolverT.empty.addAll adds).add name
        (Resolver.HelperMemberResolver member)).addAll more).call helper name).1
        = AttributeResolverT.toString (member helper) ∧
      ((((AttributeResolverT.empty.addAll adds).add name
        (Resolver.HelperMemberFunctionResolver member)).addAll more).call helper name).1
        = AttributeResolverT.toString (member helper) ∧
      AttributeResolverT.toString (Value.bool true) = "true" ∧
      AttributeResolverT.toString (Value.bool false) = "false" ∧
      ∀ s : String, AttributeResolverT.toString (Value.string s) = s := by
  have h0 := AttributeResolverT.find_addAll_of_not_mem adds _ _
    (AttributeResolverT.find_empty name :
      (AttributeResolverT.empty : AttributeResolverT Helper O I).find name = none) h
  refine ⟨?_, ?_, rfl, rfl, fun s => rfl⟩
  · rw [AttributeResolverT.call_of_find_some _ _ _ _
      (AttributeResolverT.find_addAll_of_some more _ _ _
        (AttributeResolverT.find_add_self _ name _ h0))]
    rfl
  · rw [AttributeResolverT.call_of_find_some _ _ _ _
      (AttributeResolverT.find_addAll_of_some more _ _ _
        (AttributeResolverT.find_add_self _ name _ h0))]
    rfl

/-- Witness for C10: a boolean member registered as `"oneway"` on an empty registry,
read from a helper on which it is `true`. -/
theorem C10_direct_resolver_stringifies_witness :
    "oneway" ∉ ([] : List (String × Resolver Bool Unit Unit)).map Prod.fst ∧
      (((((AttributeResolverT.empty : AttributeResolverT Bool Unit Unit).addAll []).add "oneway"
        (Resolver.HelperMemberResolver (fun b => Value.bool b))).addAll []).call true
        "oneway").1 = AttributeResolverT.toString (Value.bool true) :=
  ⟨by decide, (C10_direct_resolver_stringifies [] [] "oneway" _ true (by decide)).1⟩

end Registry

/-! ## Nested resolvers -/

section Nested

variable {Helper O I : Type}

/-- C11: for every name registered with a nested resolver (`MemberResolver` or
`MemberFunctionResolver`) when no earlier `add` used that name: if the outer
accessor yields no sub-object, or yields one that the dynamic cast to the
expected nested type rejects, the call returns exactly `"unknown"`, having
run the resolver and its outer accessor only, never the inner accessor; if
the accessor yields a sub-object that the cast accepts as `v`, the call
returns `toString` of the inner attribute of `v`. The call is a total
function, so it never fails. -/
theorem C11_nested_resolver_unknown_or_inner
    (adds more : List (String × Resolver Helper O I)) (name : String)
    (getFn : Helper → Option O) (dynamicCast : O → Option I) (inner : I → Value)
    (helper : Helper) (h : name ∉ adds.map Prod.fst) :
    ∀ r : Resolver Helper O I,
      r = Resolver.MemberResolver getFn dynamicCast inner ∨
        r = Resolver.MemberFunctionResolver getFn dynamicCast inner →
      (getFn helper = none →
        (((AttributeResolverT.empty.addAll adds).add name r).addAll more).call helper name
          = ("unknown", [Access.resolver name, Access.getFn])) ∧
      (∀ o, getFn helper = some o → dynamicCast o = none →
        (((AttributeResolverT.empty.addAll adds).add name r).addAll more).call helper name
          = ("unknown", [Access.resolver name, Access.getFn])) ∧
      (∀ o v, getFn helper = some o → dynamicCast o = some v →
        (((AttributeResolverT.empty.addAll adds).add name r).addAll more).call helper name
          = (AttributeResolverT.toString (inner v),
              [Access.resolver name, Access.getFn, Access.innerMember])) ∧
      Access.innerMember ∉ [Access.resolver name, Access.getFn] := by
  intro r hr
  rw [AttributeResolverT.call_registered adds more name r helper h]
  refine ⟨?_, ?_, ?_, by simp⟩
  · intro hnone
    rcases hr with hr | hr <;> simp [hr, Resolver.call, hnone]
  · intro o ho hcast
    rcases hr with hr | hr <;> simp [hr, Resolver.call, ho, hcast]
  · intro o v ho hcast
    rcases hr with hr | hr <;> simp [hr, Resolver.call, ho, hcast]

/-- Witness for C11: the helper is its own optional sub-object, a number; the cast accepts
even numbers; the helper `some 3` has a sub-object of the wrong type. -/
theorem C11_nested_resolver_unknown_or_inner_witness :
    "parent" ∉ ([] : List (String × Resolver (Option Nat) Nat Nat)).map Prod.fst ∧
      (((AttributeResolverT.empty.addAll []).add "parent"
          (Resolver.MemberResolver (fun h : Option Nat => h)
            (fun n : Nat => if n % 2 = 0 then some n else none)
            (fun n : Nat => Value.bool (n = 0)))).addAll []).call (some 3) "parent"
        = ("unknown", [Access.resolver "parent", Access.getFn]) :=
  ⟨by decide,
    ((C11_nested_resolver_unknown_or_inner [] [] "parent" (fun h : Option Nat => h)
      (fun n : Nat => if n % 2 = 0 then some n else none)
      (fun n : Nat => Value.bool (n = 0)) (some 3) (by decide) _ (Or.inl rfl)).2.1
      3 rfl (by decide))⟩

end Nested

/-! ## Observer lifecycle (`ObserverT::detach`, `ObserverT::failed`) -/

section Lifecycle

variable {E H M W : Type}

/-- C12: for every observer state, `detach()` stops the stopwatch once, so that the
elapsed time is what that one `stop` returns and the watch is left as that
one `stop` leaves it, and the calls it makes are `detach(elapsed)`, one for
each matched pair in the order of the matched list, all with that same
elapsed value; no call is made on an entry outside the matched list, and
the matched list stays as it was. -/
theorem C12_detach_calls_each_matched_entry_once (ops : EntryOps E H M W)
    (o : ObserverT M E) (now : Int) (w : W) :
    (o.detach ops now w).2.2
        = o._objects.map (fun p => Call.detach p.2 (o._watch.stop now).1) ∧
      (o.detach ops now w).2.2.map Call.entry = o.entries ∧
      (o.detach ops now w).2.2.length = o._objects.length ∧
      (∀ call ∈ (o.detach ops now w).2.2,
        call.entry ∈ o.entries ∧ call = Call.detach call.entry (o._watch.stop now).1) ∧
      (o.detach ops now w).1._watch = (o._watch.stop now).2 ∧
      (o.detach ops now w).1._objects = o._objects ∧
      (o.detach ops now w).2.1
        = o._objects.foldl (fun w p => ops.detach p.2 (o._watch.stop now).1 w) w := by
  refine ⟨rfl, ?_, ?_, ?_, rfl, rfl, rfl⟩
  · simp [ObserverT.detach, ObserverT.entries, Call.entry, Function.comp_def]
  · simp [ObserverT.detach]
  · intro call hcall
    simp only [ObserverT.detach, List.mem_map] at hcall
    obtain ⟨p, hp, hpc⟩ := hcall
    rw [← hpc]
    exact ⟨List.mem_map_of_mem _ hp, rfl⟩

theorem ObserverT.failedAll_eq (ops : EntryOps E H M W) (o : ObserverT M E)
    (exceptionNames : List String) (w : W) (cs : List (Call E H M)) :
    (exceptionNames.foldl
        (fun acc exceptionName =>
          let r := ObserverT.failed ops acc.1 exceptionName acc.2.1
          (r.1, r.2.1, acc.2.2 ++ r.2.2))
        (o, w, cs)).1 = o ∧
      (exceptionNames.foldl
        (fun acc exceptionName =>
          let r := ObserverT.failed ops acc.1 exceptionName acc.2.1
          (r.1, r.2.1, acc.2.2 ++ r.2.2))
        (o, w, cs)).2.2
        = cs ++ exceptionNames.flatMap
            (fun exceptionName => o._objects.map (fun p => Call.failed p.2 exceptionName)) := by
  induction exceptionNames generalizing w cs with
  | nil => simp
  | cons n ns ih =>
    simp only [List.foldl_cons, List.flatMap_cons]
    have h := ih (ObserverT.failed ops o n w).2.1 (cs ++ (ObserverT.failed ops o n w).2.2)
    simp only [ObserverT.failed] at h ⊢
    refine ⟨h.1, ?_⟩
    rw [h.2, List.append_assoc]

/-- The store after a sequence of `failed` calls: each call in turn applies the entry
operation `failed` to every matched pair, in order. -/
theorem ObserverT.failedAll_world (ops : EntryOps E H M W) (o : ObserverT M E)
    (exceptionNames : List String) (w : W) (cs : List (Call E H M)) :
    (exceptionNames.foldl
        (fun acc exceptionName =>
          let r := ObserverT.failed ops acc.1 exceptionName acc.2.1
          (r.1, r.2.1, acc.2.2 ++ r.2.2))
        (o, w, cs)).2.1
      = exceptionNames.foldl
          (fun w exceptionName =>
            o._objects.foldl (fun w p => ops.failed p.2 exceptionName w) w) w := by
  induction exceptionNames generalizing w cs with
  | nil => rfl
  | cons n ns ih =>
    simp only [List.foldl_cons]
    have h := ih (ObserverT.failed ops o n w).2.1 (cs ++ (ObserverT.failed ops o n w).2.2)
    simp only [ObserverT.failed] at h ⊢
    exact h

/-- C13: for every observer state and exception name, `failed(exceptionName)` calls
`failed(exceptionName)` on every matched pair, once each and in the order of
the matched list, and on no other entry: the call log is the matched list
mapped to those calls, and the store afterwards is the store to which the
entry operation `failed` has been applied for each matched pair in that
order. The observer (matched pairs, metric objects and stopwatch) is as it
was. Hence in any sequence of `failed` calls the observer stays as it was,
each call makes the calls it would have made alone, and the store is the
one reached by applying each call's entry operations in turn. -/
theorem C13_failed_calls_each_matched_entry_and_keeps_state (ops : EntryOps E H M W)
    (o : ObserverT M E) (exceptionName : String) (w : W) :
    (o.failed ops exceptionName w).2.2
        = o._objects.map (fun p => Call.failed p.2 exceptionName) ∧
      (o.failed ops exceptionName w).2.1
        = o._objects.foldl (fun w p => ops.failed p.2 exceptionName w) w ∧
      (o.failed ops exceptionName w).2.2.map Call.entry = o.entries ∧
      (o.failed ops exceptionName w).2.2.length = o._objects.length ∧
      (∀ call ∈ (o.failed ops exceptionName w).2.2,
        call.entry ∈ o.entries ∧ call = Call.failed call.entry exceptionName) ∧
      (o.failed ops exceptionName w).1 = o ∧
      (o.failed ops exceptionName w).1._objects = o._objects ∧
      (o.failed ops exceptionName w).1._watch = o._watch ∧
      ∀ exceptionNames : List String,
        (o.failedAll ops exceptionNames w).1 = o ∧
        (o.failedAll ops exceptionNames w).2.2
          = exceptionNames.flatMap
              (fun n => o._objects.map (fun p => Call.failed p.2 n)) ∧
        (o.failedAll ops exceptionNames w).2.1
          = exceptionNames.foldl
              (fun w n => o._objects.foldl (fun w p => ops.failed p.2 n w) w) w := by
  refine ⟨rfl, rfl, ?_, ?_, ?_, rfl, rfl, rfl, ?_⟩
  · simp [ObserverT.failed, ObserverT.entries, Call.entry, Function.comp_def]
  · simp [ObserverT.failed]
  · intro call hcall
    simp only [ObserverT.failed, List.mem_map] at hcall
    obtain ⟨p, hp, hpc⟩ := hcall
    rw [← hpc]
    exact ⟨List.mem_map_of_mem _ hp, rfl⟩
  · intro exceptionNames
    have h := ObserverT.failedAll_eq ops o exceptionNames w []
    simp only [List.nil_append] at h
    exact ⟨h.1, h.2, ObserverT.failedAll_world ops o exceptionNames w []⟩

/-- Witness for C13 on the concrete store that counts calls: an observer matched to the
entries `[1, 2]` is told `failed("timeout")`; the calls are `failed` on `1`
and on `2`, the store has counted two calls and the observer is as it was. -/
theorem C13_failed_calls_each_matched_entry_and_keeps_state_witness :
    ((⟨[(10, 1), (20, 2)], ⟨some 5⟩⟩ : ObserverT Nat Nat).failed tallyOps "timeout" 0).2.2
        = [Call.failed 1 "timeout", Call.failed 2 "timeout"] ∧
      ((⟨[(10, 1), (20, 2)], ⟨some 5⟩⟩ : ObserverT Nat Nat).failed tallyOps "timeout" 0).2.1
        = 2 ∧
      ((⟨[(10, 1), (20, 2)], ⟨some 5⟩⟩ : ObserverT Nat Nat).failed tallyOps "timeout" 0).1
        = ⟨[(10, 1), (20, 2)], ⟨some 5⟩⟩ :=
  ⟨(C13_failed_calls_each_matched_entry_and_keeps_state tallyOps
      ⟨[(10, 1), (20, 2)], ⟨some 5⟩⟩ "timeout" 0).1,
    (C13_failed_calls_each_matched_entry_and_keeps_state tallyOps
      ⟨[(10, 1), (20, 2)], ⟨some 5⟩⟩ "timeout" 0).2.1,
    (C13_failed_calls_each_matched_entry_and_keeps_state tallyOps
      ⟨[(10, 1), (20, 2)], ⟨some 5⟩⟩ "timeout" 0).2.2.2.2.2.1⟩

end Lifecycle

/-! ## Handles and the dynamic cast -/

section Cast

variable {E M X : Type}

theorem ObserverFactoryT.dynamicCast_impl (heap : List (ObserverObject M E X))
    (observer : Option Nat) (a : Nat) (o : ObserverT M E) (h1 : observer = some a)
    (h2 : heap[a]? = some (ObserverObject.impl o)) :
    ObserverFactoryT.dynamicCast heap observer = some a := by
  simp only [ObserverFactoryT.dynamicCast, h1, h2]

theorem ObserverFactoryT.dynamicCast_other (heap : List (ObserverObject M E X))
    (observer : Option Nat)
    (h : ¬ ∃ a o, observer = some a ∧ heap[a]? = some (ObserverObject.impl o)) :
    ObserverFactoryT.dynamicCast heap observer = none := by
  unfold ObserverFactoryT.dynamicCast
  cases observer with
  | none => rfl
  | some a =>
    simp only []
    split
    · next o ho => exact absurd ⟨a, o, rfl, ho⟩ h
    · rfl

end Cast

/-! ## Observer factory (`ObserverFactoryT::getObserver`) -/

section Factory

variable {E H M W X : Type} [LinearOrder E]

/-- The tail of `getObserver` on a freshly allocated observer. -/
theorem ObserverFactoryT.updateAt_new (ops : EntryOps E H M W) (helper : H)
    (heap : List (ObserverObject M E X)) (ms : List E) (w : W) :
    ObserverFactoryT.updateAt ops helper (heap ++ [ObserverObject.impl ObserverT.new])
        heap.length ms w
      = { obsv := some heap.length,
          heap := heap ++ [ObserverObject.impl
            ((ObserverT.new : ObserverT M E).update ops helper ms w).obsv],
          world := ((ObserverT.new : ObserverT M E).update ops helper ms w).world,
          calls := ((ObserverT.new : ObserverT M E).update ops helper ms w).calls } := by
  have hget : (heap ++ [(ObserverObject.impl ObserverT.new : ObserverObject M E X)])[heap.length]?
      = some (ObserverObject.impl ObserverT.new) := by
    rw [List.getElem?_append_right (le_refl _)]
    simp
  unfold ObserverFactoryT.updateAt
  rw [hget]
  simp [List.set_append_right]

/-- The tail of `getObserver` on an existing observer of the factory's type. -/
theorem ObserverFactoryT.updateAt_impl (ops : EntryOps E H M W) (helper : H)
    (heap : List (ObserverObject M E X)) (a : Nat) (o : ObserverT M E) (ms : List E) (w : W)
    (h : heap[a]? = some (ObserverObject.impl o)) :
    ObserverFactoryT.updateAt ops helper heap a ms w
      = { obsv := some a,
          heap := heap.set a (ObserverObject.impl (o.update ops helper ms w).obsv),
          world := (o.update ops helper ms w).world,
          calls := (o.update ops helper ms w).calls } := by
  unfold ObserverFactoryT.updateAt
  rw [h]

/-- C15: if the store's `getMatching(_name, helper)` returns no entry, then
`getObserver(helper, observer)` returns the null handle for every supplied
handle and every heap of observers, makes no call on any entry and leaves
every observer object, the supplied one included, as it was. -/
theorem C15_getObserver_existing_absent_when_no_match (ops : EntryOps E H M W)
    (f : ObserverFactoryT E H W) (helper : H) (observer : Option Nat)
    (heap : List (ObserverObject M E X)) (w w1 : W)
    (hm : f._metrics.getMatching f._name helper w = ([], w1)) :
    (f.getObserverExisting ops helper observer heap w).obsv = none ∧
      (f.getObserverExisting ops helper observer heap w).heap = heap ∧
      (f.getObserverExisting ops helper observer heap w).calls = [] ∧
      (f.getObserverExisting ops helper observer heap w).world = w1 := by
  simp [ObserverFactoryT.getObserverExisting, hm]

/-- Witness for C15: the map `"Dispatch"` of the concrete store matches nothing; the
supplied observer is matched to entry `1`. -/
theorem C15_getObserver_existing_absent_when_no_match_witness :
    counterAdmin.getMatching "Dispatch" () 0 = ([], 0) ∧
      ((⟨counterAdmin, "Dispatch"⟩ : ObserverFactoryT Nat Unit Nat).getObserverExisting
          counterOps () (some 0)
          ([ObserverObject.impl ⟨[(10, 1)], ⟨none⟩⟩] : List (ObserverObject Nat Nat Unit))
          0).obsv = none :=
  ⟨by simp [counterAdmin],
    (C15_getObserver_existing_absent_when_no_match counterOps ⟨counterAdmin, "Dispatch"⟩ ()
      (some 0) ([ObserverObject.impl ⟨[(10, 1)], ⟨none⟩⟩] : List (ObserverObject Nat Nat Unit))
      0 0 (by simp [counterAdmin])).1⟩

/-- C16: let the store's `getMatching(_name, helper)` return a non-empty list `ms`, and
let the supplied handle be null or refer to an object of the heap. Then
`getObserver(helper, observer)` returns the supplied handle exactly when it
refers to an object of the factory's observer type; in that case that
object is replaced by the result of its `update` with `ms` and no object is
allocated. Otherwise the returned handle is the address of a new object,
different from the supplied handle, holding a freshly constructed observer
updated with `ms`, whose matched entries are exactly `ms`, and every object
that was in the heap, the supplied one included, is as it was. -/
theorem C16_getObserver_existing_reuses_same_type (ops : EntryOps E H M W)
    (f : ObserverFactoryT E H W) (helper : H) (observer : Option Nat)
    (heap : List (ObserverObject M E X)) (w : W) (ms : List E) (w1 : W)
    (hm : f._metrics.getMatching f._name helper w = (ms, w1)) (hne : ms ≠ [])
    (hwf : ∀ a, observer = some a → a < heap.length) :
    ((f.getObserverExisting ops helper observer heap w).obsv = observer ↔
        ∃ a o, observer = some a ∧ heap[a]? = some (ObserverObject.impl o)) ∧
      (∀ a o, observer = some a → heap[a]? = some (ObserverObject.impl o) →
        (f.getObserverExisting ops helper observer heap w).obsv = some a ∧
        (f.getObserverExisting ops helper observer heap w).heap
          = heap.set a (ObserverObject.impl (o.update ops helper ms w1).obsv) ∧
        (f.getObserverExisting ops helper observer heap w).calls
          = (o.update ops helper ms w1).calls ∧
        (f.getObserverExisting ops helper observer heap w).heap.length = heap.length) ∧
      ((¬ ∃ a o, observer = some a ∧ heap[a]? = some (ObserverObject.impl o)) →
        (f.getObserverExisting ops helper observer heap w).obsv = some heap.length ∧
        (f.getObserverExisting ops helper observer heap w).obsv ≠ observer ∧
        (f.getObserverExisting ops helper observer heap w).heap
          = heap ++ [ObserverObject.impl
              ((ObserverT.new : ObserverT M E).update ops helper ms w1).obsv] ∧
        ((ObserverT.new : ObserverT M E).update ops helper ms w1).obsv.entries = ms ∧
        ∀ a, a < heap.length →
          (f.getObserverExisting ops helper observer heap w).heap[a]? = heap[a]?) := by
  have hempty : ms.isEmpty = false := by
    cases ms with
    | nil => exact absurd rfl hne
    | cons e ms => rfl
  have hreuse : ∀ a o, observer = some a → heap[a]? = some (ObserverObject.impl o) →
      f.getObserverExisting ops helper observer heap w
        = { obsv := some a,
            heap := heap.set a (ObserverObject.impl (o.update ops helper ms w1).obsv),
            world := (o.update ops helper ms w1).world,
            calls := (o.update ops helper ms w1).calls } := by
    intro a o h1 h2
    simp only [ObserverFactoryT.getObserverExisting, hm, hempty, Bool.false_eq_true,
      if_false, ObserverFactoryT.dynamicCast_impl heap observer a o h1 h2]
    exact ObserverFactoryT.updateAt_impl ops helper heap a o ms w1 h2
  have hfresh : (¬ ∃ a o, observer = some a ∧ heap[a]? = some (ObserverObject.impl o)) →
      f.getObserverExisting ops helper observer heap w
        = { obsv := some heap.length,
            heap := heap ++ [ObserverObject.impl
              ((ObserverT.new : ObserverT M E).update ops helper ms w1).obsv],
            world := ((ObserverT.new : ObserverT M E).update ops helper ms w1).world,
            calls := ((ObserverT.new : ObserverT M E).update ops helper ms w1).calls } := by
    intro h
    simp only [ObserverFactoryT.getObserverExisting, hm, hempty, Bool.false_eq_true,
      if_false, ObserverFactoryT.dynamicCast_other heap observer h]
    exact ObserverFactoryT.updateAt_new ops helper heap ms w1
  have hdiff : some heap.length ≠ observer := by
    intro heq
    exact absurd (hwf heap.length heq.symm) (lt_irrefl _)
  refine ⟨⟨?_, ?_⟩, ?_, ?_⟩
  · intro hret
    by_contra hno
    rw [hfresh hno] at hret
    exact hdiff hret
  · rintro ⟨a, o, h1, h2⟩
    rw [hreuse a o h1 h2, h1]
  · intro a o h1 h2
    rw [hreuse a o h1 h2]
    exact ⟨rfl, rfl, rfl, by simp⟩
  · intro hno
    rw [hfresh hno]
    refine ⟨rfl, hdiff, rfl, ObserverT.update_new_entries ops helper ms w1, ?_⟩
    intro a ha
    exact List.getElem?_append_left ha

/-- Witness for C16: the supplied handle refers to an observer of another type; the map
`"Invocation"` matches `[1, 2]`, so a new observer is allocated at address
`1`. -/
theorem C16_getObserver_existing_reuses_same_type_witness :
    counterAdmin.getMatching "Invocation" () 0 = ([1, 2], 0) ∧ ([1, 2] : List Nat) ≠ [] ∧
      (∀ a, some 0 = some a →
        a < ([ObserverObject.other ()] : List (ObserverObject Nat Nat Unit)).length) ∧
      ((⟨counterAdmin, "Invocation"⟩ : ObserverFactoryT Nat Unit Nat).getObserverExisting
          counterOps () (some 0)
          ([ObserverObject.other ()] : List (ObserverObject Nat Nat Unit)) 0).obsv
          = some 1 :=
  ⟨by simp [counterAdmin], by decide, by simp,
    ((C16_getObserver_existing_reuses_same_type counterOps
      ⟨counterAdmin, "Invocation"⟩ () (some 0)
      ([ObserverObject.other ()] : List (ObserverObject Nat Nat Unit)) 0 [1, 2] 0
      (by simp [counterAdmin]) (by decide) (by simp)).2.2
      (by
        rintro ⟨a, o, h1, h2⟩
        cases h1
        simp at h2)).1⟩

end Factory

/-! ## Sub-observers (`ObserverT::getObserver`) -/

section SubObservers

variable {E H2 M2 M W : Type}

variable [LinearOrder E]

end SubObservers

/-! ## Exact result, idempotence and iteration count of `ObserverT::update` -/

section Counting

variable {E H M W : Type} [LinearOrder E]

/-- The loop of `update`, started with `_objects = pre ++ suf` and `q` just after
`pre`: the pairs it erases are pairs of `suf`, in order, each with an entry
below one of the candidates, and it runs one iteration per candidate and
one per erased pair. -/
theorem ObserverT.updateLoop_erased (ops : EntryOps E H M W) (helper : H) (p : List E)
    (suf : List (M × E)) (w : W) (pre : List (M × E)) (watch : StopWatch)
    (cs : List (Call E H M)) (it : Nat) (er : List (M × E)) :
    ∃ ek : List (M × E),
      (ObserverT.updateLoop ops helper p
        { obsv := ⟨pre ++ suf, watch⟩, q := pre.length, world := w, calls := cs,
          iterations := it, erased := er }).erased = er ++ ek ∧
      (ObserverT.updateLoop ops helper p
        { obsv := ⟨pre ++ suf, watch⟩, q := pre.length, world := w, calls := cs,
          iterations := it, erased := er }).iterations = it + p.length + ek.length ∧
      List.Sublist ek suf ∧
      ∀ x ∈ ek, ∃ c ∈ p, x.2 < c := by
  induction p, suf, w using sweep.induct ops helper generalizing pre cs it er with
  | case1 suf w => exact ⟨[], by simp [ObserverT.updateLoop_nil]⟩
  | case2 c p w r ih =>
    have hstep := ObserverT.updateLoop_new ops helper c p
      { obsv := ⟨pre ++ [], watch⟩, q := pre.length, world := w, calls := cs,
        iterations := it, erased := er }
      (by simp only [UpdateState.getElem?_split]; simp)
    obtain ⟨ek, h1, h2, h3, h4⟩ :=
      ih (pre ++ [(r.1, c)]) (cs ++ [Call.attach c helper r.1]) (it + 1) er
    simp only [r] at h1 h2
    rw [hstep, UpdateState.newObject_split]
    refine ⟨ek, h1, ?_, h3, ?_⟩
    · rw [h2, List.length_cons]; omega
    · intro x hx
      obtain ⟨c', hc', hlt⟩ := h4 x hx
      exact ⟨c', List.mem_cons_of_mem _ hc', hlt⟩
  | case3 c p m suf w hlt r ih =>
    have hstep := ObserverT.updateLoop_new ops helper c p
      { obsv := ⟨pre ++ m :: suf, watch⟩, q := pre.length, world := w, calls := cs,
        iterations := it, erased := er }
      (by simp only [UpdateState.getElem?_split]; simp [hlt])
    obtain ⟨ek, h1, h2, h3, h4⟩ :=
      ih (pre ++ [(r.1, c)]) (cs ++ [Call.attach c helper r.1]) (it + 1) er
    simp only [r] at h1 h2
    rw [hstep, UpdateState.newObject_split]
    refine ⟨ek, h1, ?_, h3, ?_⟩
    · rw [h2, List.length_cons]; omega
    · intro x hx
      obtain ⟨c', hc', hlt'⟩ := h4 x hx
      exact ⟨c', List.mem_cons_of_mem _ hc', hlt'⟩
  | case4 p m suf w hlt ih =>
    have hstep := ObserverT.updateLoop_same ops helper m.2 p
      { obsv := ⟨pre ++ m :: suf, watch⟩, q := pre.length, world := w, calls := cs,
        iterations := it, erased := er }
      (by simp only [UpdateState.getElem?_split]; simp)
    obtain ⟨ek, h1, h2, h3, h4⟩ := ih (pre ++ [m]) cs (it + 1) er
    rw [hstep, UpdateState.sameObject_split]
    refine ⟨ek, h1, ?_, List.Sublist.cons _ h3, ?_⟩
    · rw [h2, List.length_cons]; omega
    · intro x hx
      obtain ⟨c', hc', hlt'⟩ := h4 x hx
      exact ⟨c', List.mem_cons_of_mem _ hc', hlt'⟩
  | case5 c p m suf w hlt hne ih =>
    have hgt : m.2 < c := lt_of_le_of_ne (not_lt.1 hlt) (Ne.symm hne)
    have hstep := ObserverT.updateLoop_removed ops helper c p
      { obsv := ⟨pre ++ m :: suf, watch⟩, q := pre.length, world := w, calls := cs,
        iterations := it, erased := er }
      (by simp only [UpdateState.getElem?_split]; simp [hgt])
    obtain ⟨ek, h1, h2, h3, h4⟩ := ih pre cs (it + 1) (er ++ [m])
    rw [hstep, UpdateState.removedObject_split]
    refine ⟨m :: ek, ?_, ?_, List.Sublist.cons₂ _ h3, ?_⟩
    · rw [h1, List.append_assoc, List.singleton_append]
    · rw [h2]; simp only [List.length_cons]; omega
    · intro x hx
      rcases List.mem_cons.1 hx with h | h
      · rw [h]; exact ⟨c, List.mem_cons_self _ _, hgt⟩
      · exact h4 x h

/-- The pairs `update` erases and the iterations it runs. -/
theorem ObserverT.update_erased (ops : EntryOps E H M W) (helper : H) (o : ObserverT M E)
    (B : List E) (w : W) :
    (o.update ops helper B w).iterations = B.length + (o.update ops helper B w).erased.length ∧
      List.Sublist (o.update ops helper B w).erased o._objects ∧
      ∀ x ∈ (o.update ops helper B w).erased, ∃ c ∈ B, x.2 < c := by
  obtain ⟨ek, h1, h2, h3, h4⟩ :=
    ObserverT.updateLoop_erased ops helper B o._objects w [] o._watch [] 0 []
  simp only [List.nil_append, List.length_nil, Nat.zero_add] at h1 h2
  have h1' : (o.update ops helper B w).erased = ek := h1
  have h2' : (o.update ops helper B w).iterations = B.length + ek.length := h2
  rw [h1', h2']
  exact ⟨rfl, h3, h4⟩

/-- In a strictly ascending list every element is below a bound exactly when the last
one is. -/
theorem all_lt_iff_last_lt (B : List E) (e : E) (hB : List.Pairwise (· < ·) B) :
    B.all (fun c => decide (c < e)) = B.getLast?.all (fun l => decide (l < e)) := by
  rcases List.eq_nil_or_concat B with h | ⟨L, b, h⟩
  · rw [h]; rfl
  · rw [h, List.concat_eq_append] at hB ⊢
    rw [List.pairwise_append] at hB
    have hlast : (L ++ [b]).getLast? = some b := by simp
    rw [hlast]
    by_cases hb : b < e
    · have : ∀ y ∈ L, y < e := fun y hy => lt_trans (hB.2.2 y hy b (List.mem_singleton_self b)) hb
      simp [hb]
      exact this
    · simp [hb]

/-- C18: on an observer whose matched entries `A` are strictly ascending and with strictly
ascending candidates `B`, the matched entries after `update` are `B` followed
by the entries of `A` that order strictly after the last element of `B`;
with no candidate the observer is left as it was; and every pair that
`update` erases is a pair of the old vector whose entry orders before some
candidate, so no pair beyond the last candidate is erased. -/
theorem C18_update_result_is_candidates_then_tail (ops : EntryOps E H M W) (helper : H)
    (o : ObserverT M E) (B : List E) (w : W)
    (hA : List.Pairwise (· < ·) o.entries) (hB : List.Pairwise (· < ·) B) :
    (o.update ops helper B w).obsv.entries
        = B ++ o.entries.filter (fun e => B.getLast?.all (fun l => decide (l < e))) ∧
      (B = [] → (o.update ops helper B w).obsv = o) ∧
      (∀ x ∈ (o.update ops helper B w).erased,
        x ∈ o._objects ∧ ∃ c ∈ B, x.2 < c) := by
  refine ⟨?_, ?_, ?_⟩
  · have hobj := (ObserverT.update_eq_sweep ops helper o B w).1
    rw [ObserverT.entries, hobj]
    simp only []
    rw [sweep_entries ops helper B o._objects w hA]
    congr 1
    apply List.filter_congr
    intro e _
    exact all_lt_iff_last_lt B e hB
  · intro hnil
    rw [hnil, ObserverT.update, ObserverT.updateLoop_nil]
  · intro x hx
    obtain ⟨_, hsub, hlt⟩ := ObserverT.update_erased ops helper o B w
    exact ⟨hsub.subset hx, hlt x hx⟩

/-- Witness for C18: an observer matched to `[1, 2, 5, 9]`, updated with the candidates
`[2, 3]`; the result is `[2, 3, 5, 9]`. -/
theorem C18_update_result_is_candidates_then_tail_witness :
    List.Pairwise (· < ·)
        (⟨[(10, 1), (20, 2), (50, 5), (90, 9)], ⟨none⟩⟩ : ObserverT Nat Nat).entries ∧
      List.Pairwise (· < ·) [2, 3] ∧
      ((⟨[(10, 1), (20, 2), (50, 5), (90, 9)], ⟨none⟩⟩ : ObserverT Nat Nat).update counterOps ()
        [2, 3] 0).obsv.entries = [2, 3, 5, 9] :=
  ⟨by decide, by decide,
    (C18_update_result_is_candidates_then_tail counterOps ()
      ⟨[(10, 1), (20, 2), (50, 5), (90, 9)], ⟨none⟩⟩ [2, 3] 0 (by decide) (by decide)).1⟩

/-- When the pairs from `q` on begin with pairs whose entries are the candidates, in
order, the loop of `update` only steps over them. -/
theorem ObserverT.updateLoop_all_same (ops : EntryOps E H M W) (helper : H)
    (xs tl pre : List (M × E)) (watch : StopWatch) (w : W) (cs : List (Call E H M))
    (it : Nat) (er : List (M × E)) :
    ObserverT.updateLoop ops helper (xs.map Prod.snd)
        { obsv := ⟨pre ++ (xs ++ tl), watch⟩, q := pre.length, world := w, calls := cs,
          iterations := it, erased := er }
      = { obsv := ⟨pre ++ (xs ++ tl), watch⟩, q := pre.length + xs.length, world := w,
          calls := cs, iterations := it + xs.length, erased := er } := by
  induction xs generalizing pre it with
  | nil => simp [ObserverT.updateLoop_nil]
  | cons x xs ih =>
    have hstep := ObserverT.updateLoop_same ops helper x.2 (xs.map Prod.snd)
      { obsv := ⟨pre ++ x :: (xs ++ tl), watch⟩, q := pre.length, world := w, calls := cs,
        iterations := it, erased := er }
      (by simp only [UpdateState.getElem?_split]; simp)
    rw [List.map_cons, List.cons_append, hstep, UpdateState.sameObject_split, ih]
    simp only [List.append_assoc, List.singleton_append, List.length_append,
      List.length_cons, List.length_nil]
    congr 1 <;> omega

/-- C19: on an observer whose matched entries are strictly ascending, a second
`update(helper, B)` right after the first leaves the observer (pairs, metric
objects and stopwatch) and the store as the first call left them, makes no
call on any entry, hence no `attach`, erases no pair, and runs one iteration
per candidate. The candidates need not be sorted for this. -/
theorem C19_update_twice_same_candidates_is_idle (ops : EntryOps E H M W) (helper : H)
    (o : ObserverT M E) (B : List E) (w : W)
    (hA : List.Pairwise (· < ·) o.entries) :
    ((o.update ops helper B w).obsv.update ops helper B (o.update ops helper B w).world).obsv
        = (o.update ops helper B w).obsv ∧
      ((o.update ops helper B w).obsv.update ops helper B
        (o.update ops helper B w).world).calls = [] ∧
      ((o.update ops helper B w).obsv.update ops helper B
        (o.update ops helper B w).world).erased = [] ∧
      ((o.update ops helper B w).obsv.update ops helper B
        (o.update ops helper B w).world).world = (o.update ops helper B w).world ∧
      ((o.update ops helper B w).obsv.update ops helper B
        (o.update ops helper B w).world).iterations = B.length := by
  have hobj := (ObserverT.update_eq_sweep ops helper o B w).1
  have hent := sweep_entries ops helper B o._objects w hA
  generalize o.update ops helper B w = s1 at hobj
  generalize hobjs : (sweep ops helper B o._objects w).done
    ++ (sweep ops helper B o._objects w).rest = objs at hobj hent
  have hsplit : objs = objs.take B.length ++ objs.drop B.length :=
    (List.take_append_drop _ _).symm
  have htake : (objs.take B.length).map Prod.snd = B := by
    rw [List.map_take, hent, List.take_left]
  have hlen : (objs.take B.length).length = B.length := by
    rw [← List.length_map (objs.take B.length) Prod.snd, htake]
  have hloop := ObserverT.updateLoop_all_same ops helper (objs.take B.length)
    (objs.drop B.length) [] o._watch s1.world [] 0 []
  rw [htake] at hloop
  simp only [List.nil_append, List.length_nil, Nat.zero_add, ← hsplit, hlen] at hloop
  have hupd : s1.obsv.update ops helper B s1.world
      = { obsv := ⟨objs, o._watch⟩, q := B.length, world := s1.world, calls := [],
          iterations := B.length, erased := [] } := by
    rw [ObserverT.update, hobj]
    exact hloop
  rw [hupd, hobj]
  exact ⟨rfl, rfl, rfl, rfl, rfl⟩

/-- Witness for C19: an observer matched to `[1, 2, 5, 9]` and the candidates `[2, 3]`. -/
theorem C19_update_twice_same_candidates_is_idle_witness :
    List.Pairwise (· < ·)
        (⟨[(10, 1), (20, 2), (50, 5), (90, 9)], ⟨none⟩⟩ : ObserverT Nat Nat).entries ∧
      (((⟨[(10, 1), (20, 2), (50, 5), (90, 9)], ⟨none⟩⟩ : ObserverT Nat Nat).update counterOps ()
          [2, 3] 0).obsv.update counterOps () [2, 3]
          ((⟨[(10, 1), (20, 2), (50, 5), (90, 9)], ⟨none⟩⟩ : ObserverT Nat Nat).update
            counterOps () [2, 3] 0).world).calls = [] :=
  ⟨by decide,
    (C19_update_twice_same_candidates_is_idle counterOps ()
      ⟨[(10, 1), (20, 2), (50, 5), (90, 9)], ⟨none⟩⟩ [2, 3] 0 (by decide)).2.1⟩

/-- One iteration of the loop of `update` from a state whose iterator `q` is within the
vector: it takes the next candidate, inserting a pair or stepping over one,
or it keeps the candidate and erases the pair at `q`, which makes the vector
one shorter; in each case `q` is again within the vector. -/
theorem ObserverT.updateLoop_step (ops : EntryOps E H M W) (helper : H) (c : E)
    (p : List E) (s : UpdateState E H M W) (hq : s.q ≤ s.obsv._objects.length) :
    (ObserverT.updateLoop ops helper (c :: p) s
          = ObserverT.updateLoop ops helper p (s.newObject ops helper c) ∧
        (s.newObject ops helper c).q ≤ (s.newObject ops helper c).obsv._objects.length) ∨
      (ObserverT.updateLoop ops helper (c :: p) s
          = ObserverT.updateLoop ops helper p s.sameObject ∧
        s.sameObject.q ≤ s.sameObject.obsv._objects.length) ∨
      (ObserverT.updateLoop ops helper (c :: p) s
          = ObserverT.updateLoop ops helper (c :: p) s.removedObject ∧
        s.removedObject.q ≤ s.removedObject.obsv._objects.length ∧
        s.removedObject.obsv._objects.length + 1 = s.obsv._objects.length) := by
  have hnewq : (s.newObject ops helper c).q
      ≤ (s.newObject ops helper c).obsv._objects.length := by
    simp only [UpdateState.newObject, List.length_append, List.length_cons, List.length_take,
      List.length_drop]
    omega
  cases hget : s.obsv._objects[s.q]? with
  | none =>
    left
    exact ⟨ObserverT.updateLoop_new ops helper c p s (by rw [hget]; rfl), hnewq⟩
  | some m =>
    have hlt : s.q < s.obsv._objects.length := (List.getElem?_eq_some.1 hget).1
    rcases lt_trichotomy c m.2 with h | h | h
    · left
      exact ⟨ObserverT.updateLoop_new ops helper c p s (by rw [hget]; simp [h]), hnewq⟩
    · right; left
      refine ⟨ObserverT.updateLoop_same ops helper c p s (by rw [hget]; simp [h]), ?_⟩
      simp only [UpdateState.sameObject]
      omega
    · right; right
      refine ⟨ObserverT.updateLoop_removed ops helper c p s (by rw [hget]; simp [h]), ?_, ?_⟩
      · simp only [UpdateState.removedObject, List.length_eraseIdx, hlt, if_true]
        omega
      · simp only [UpdateState.removedObject, List.length_eraseIdx, hlt, if_true]
        omega

/-- C20: `update` is a total function of the matched state and the candidate list,
sorted or not. Every iteration of its loop, from a state whose iterator `q`
is within the vector, either takes the next candidate or keeps it and erases
the pair at `q`, and leaves `q` within the vector. The number of iterations
is the number of candidates plus the number of erased pairs; the erased
pairs are pairs of the vector at entry, so the iterations are at most the
number of candidates plus the number of matched pairs at entry; and at
exit `q` is within the vector. -/
theorem C20_update_iterations_bounded (ops : EntryOps E H M W) (helper : H)
    (o : ObserverT M E) (B : List E) (w : W) :
    (o.update ops helper B w).iterations
        = B.length + (o.update ops helper B w).erased.length ∧
      (o.update ops helper B w).erased.length ≤ o._objects.length ∧
      (o.update ops helper B w).iterations ≤ B.length + o._objects.length ∧
      (o.update ops helper B w).q ≤ (o.update ops helper B w).obsv._objects.length ∧
      ∀ (c : E) (p : List E) (s : UpdateState E H M W), s.q ≤ s.obsv._objects.length →
        (ObserverT.updateLoop ops helper (c :: p) s
              = ObserverT.updateLoop ops helper p (s.newObject ops helper c) ∧
            (s.newObject ops helper c).q
              ≤ (s.newObject ops helper c).obsv._objects.length) ∨
          (ObserverT.updateLoop ops helper (c :: p) s
              = ObserverT.updateLoop ops helper p s.sameObject ∧
            s.sameObject.q ≤ s.sameObject.obsv._objects.length) ∨
          (ObserverT.updateLoop ops helper (c :: p) s
              = ObserverT.updateLoop ops helper (c :: p) s.removedObject ∧
            s.removedObject.q ≤ s.removedObject.obsv._objects.length ∧
            s.removedObject.obsv._objects.length + 1 = s.obsv._objects.length) := by
  obtain ⟨hit, hsub, _⟩ := ObserverT.update_erased ops helper o B w
  have hlen := hsub.length_le
  have hsw := ObserverT.updateLoop_eq_sweep ops helper B o._objects w [] o._watch [] 0 []
  simp only [List.nil_append, List.length_nil, Nat.zero_add] at hsw
  have hobj : (o.update ops helper B w).obsv._objects
      = (sweep ops helper B o._objects w).done ++ (sweep ops helper B o._objects w).rest := by
    have := hsw.1
    rw [ObserverT.update]
    rw [this]
  have hq : (o.update ops helper B w).q = (sweep ops helper B o._objects w).done.length :=
    hsw.2.1
  refine ⟨hit, hlen, by omega, ?_, fun c p s h => ObserverT.updateLoop_step ops helper c p s h⟩
  rw [hobj, hq, List.length_append]
  omega

end Counting

end IceMX
